import Mathlib

/-!
Verification development for the Runa compiler pipeline
(lexer, semantic analyzer, pattern-match compiler, type inference,
code generators, transpiler driver).

Shallow embedding conventions:
- Python runtime values are modelled by `Runa.Value`; floating-point
  numbers are not modelled (no claim depends on float arithmetic).
- Python `dict` objects are modelled as insertion-ordered association
  lists with update-in-place semantics (`bindingsSet`).
- Fallible code (a Python function that can raise) returns `Except`.
- Stateful classes are modelled by explicit state passing.
-/

namespace Runa

/-- Runtime values, as in `src/runa/patterns/matcher.py` which matches
against arbitrary Python values (floats omitted from the model). -/
inductive Value where
  | int (n : Int)
  | bool (b : Bool)
  | str (s : String)
  | list (items : List Value)
  | tuple (items : List Value)
  | dict (entries : List (Value × Value))
deriving Repr

mutual

/-- Python `==` on runtime values. In Python `bool` is a subclass of
`int`, so `True == 1`; lists never equal tuples; dict equality compares
key sets and the values at each key. -/
def pyEq : Value → Value → Bool
  | .int m, .int n => m == n
  | .int m, .bool b => m == (if b then (1 : Int) else 0)
  | .bool b, .int n => (if b then (1 : Int) else 0) == n
  | .bool a, .bool b => a == b
  | .str a, .str b => a == b
  | .list a, .list b => pyEqList a b
  | .tuple a, .tuple b => pyEqList a b
  | .dict a, .dict b => a.length == b.length && pyEqEntries a b
  | _, _ => false
termination_by a b => sizeOf a + sizeOf b

/-- Elementwise Python `==` of two sequences. -/
def pyEqList : List Value → List Value → Bool
  | [], [] => true
  | x :: xs, y :: ys => pyEq x y && pyEqList xs ys
  | _, _ => false
termination_by a b => sizeOf a + sizeOf b

/-- Check that every entry of the first dict is present (with an equal
value) in the second dict. -/
def pyEqEntries : List (Value × Value) → List (Value × Value) → Bool
  | [], _ => true
  | (k, v) :: rest, d => pyDictHasEq d k v && pyEqEntries rest d
termination_by a b => sizeOf a + sizeOf b

/-- Look up key `k` in a dict and compare the stored value with `v`. -/
def pyDictHasEq : List (Value × Value) → Value → Value → Bool
  | [], _, _ => false
  | (k2, v2) :: rest, k, v => if pyEq k2 k then pyEq v v2 else pyDictHasEq rest k v
termination_by d k v => sizeOf d + sizeOf k + sizeOf v

end

/-- Python `key in d` / `d[key]` on a dict, with `==`-based key lookup. -/
def pyLookup : List (Value × Value) → Value → Option Value
  | [], _ => none
  | (k, v) :: rest, key => if pyEq k key then some v else pyLookup rest key

/-- Result of a pattern match (`MatchResult` in `matcher.py`): a success
flag and the bindings dictionary. -/
structure MatchResult where
  success : Bool
  bindings : List (String × Value)
deriving Repr

/-- Python dict lookup on a bindings dict (string keys). -/
def bindingsGet : List (String × Value) → String → Option Value
  | [], _ => none
  | (k, v) :: rest, name => if k = name then some v else bindingsGet rest name

/-- Python `d[name] = v`: overwrite in place if present, else append. -/
def bindingsSet : List (String × Value) → String → Value → List (String × Value)
  | [], name, v => [(name, v)]
  | (k, w) :: rest, name, v =>
      if k = name then (k, v) :: rest else (k, w) :: bindingsSet rest name v

/-- Python `dict(self)` followed by `.update(other)`. -/
def bindingsUpdate (b other : List (String × Value)) : List (String × Value) :=
  other.foldl (fun acc kv => bindingsSet acc kv.1 kv.2) b

/-- `MatchResult.merge`: fail if either side failed, fail on a binding
bound to conflicting (`!=`) values, otherwise union the bindings with
the other side winning. -/
def MatchResult.merge (self other : MatchResult) : MatchResult :=
  if !self.success || !other.success then ⟨false, []⟩
  else if other.bindings.any (fun kv =>
      match bindingsGet self.bindings kv.1 with
      | some v => !pyEq v kv.2
      | none => false) then ⟨false, []⟩
  else ⟨true, bindingsUpdate self.bindings other.bindings⟩

/-- Value of a literal AST node inside a `LiteralPattern` (the matcher
unwraps `pattern.value.value`; float literals are not modelled). -/
inductive Lit where
  | strV (s : String)
  | intV (n : Int)
  | boolV (b : Bool)
deriving Repr

/-- Unwrapped Python value of a literal node. -/
def Lit.value : Lit → Value
  | .strV s => .str s
  | .intV n => .int n
  | .boolV b => .bool b

/-- Pattern nodes from `src/runa/patterns/nodes.py`. A dictionary pattern
entry is a `DictionaryEntry` whose key is a `StringLiteral`, so entries
are modelled as string-keyed pairs. -/
inductive Pattern where
  | wildcard
  | literal (value : Lit)
  | varP (name : String)
  | listP (elements : List Pattern)
  | dictP (entries : List (String × Pattern))
  | restP (name : Option String)
  | typeP (typeName : String)
deriving Repr

/-- Registry of runtime type-checking predicates (the `type_registry`
argument of `match_pattern`). -/
def TypeRegistry := String → Option (Value → Bool)

/-- Default (empty) registry, as used by the recursive calls inside
`match_list_pattern` / `match_dictionary_pattern`, which call
`match_pattern` without passing the registry through. -/
def emptyRegistry : TypeRegistry := fun _ => none

/-- First index of a `RestPattern` among the elements, if any. -/
def restIndex : List Pattern → Nat → Option Nat
  | [], _ => none
  | .restP _ :: _, i => some i
  | _ :: rest, i => restIndex rest (i + 1)

/-- Items of a list-like Python value (`isinstance(value, (list, tuple))`). -/
def seqItems : Value → Option (List Value)
  | .list xs => some xs
  | .tuple xs => some xs
  | _ => none

/-- Python slice `value[a:b]` of a list or tuple (slicing preserves the
sequence kind). -/
def seqSlice (value : Value) (a b : Nat) : Value :=
  match value with
  | .tuple xs => .tuple ((xs.take b).drop a)
  | .list xs => .list ((xs.take b).drop a)
  | v => v

theorem sizeOf_take_le (l : List Pattern) (n : Nat) : sizeOf (l.take n) ≤ sizeOf l := by
  induction l generalizing n with
  | nil => cases n <;> simp
  | cons x xs ih =>
      cases n with
      | zero => simp; omega
      | succ m =>
          simp only [List.take_succ_cons, List.cons.sizeOf_spec]
          have := ih m
          omega

theorem sizeOf_drop_le (l : List Pattern) (n : Nat) : sizeOf (l.drop n) ≤ sizeOf l := by
  induction l generalizing n with
  | nil => cases n <;> simp
  | cons x xs ih =>
      cases n with
      | zero => simp
      | succ m =>
          simp only [List.drop_succ_cons, List.cons.sizeOf_spec]
          have := ih m
          omega

theorem sizeOf_getD_lt (l : List Pattern) (i : Nat) (d : Pattern)
    (h : i < l.length) : sizeOf (l.getD i d) < sizeOf l := by
  induction l generalizing i with
  | nil => simp at h
  | cons x xs ih =>
      cases i with
      | zero => simp [List.getD]; omega
      | succ j =>
          have hj : j < xs.length := by simpa using h
          have := ih j hj
          simp only [List.getD_cons_succ, List.cons.sizeOf_spec]
          omega

mutual

/-- `match_pattern` from `matcher.py`: match a value against a pattern,
producing a `MatchResult`. Note the recursive calls made from the list
and dictionary helpers use the default (empty) type registry, exactly as
in the source (the registry is not passed through). -/
def matchPattern (reg : TypeRegistry) : Pattern → Value → MatchResult
  | .wildcard, _ => ⟨true, []⟩
  | .literal l, value => ⟨pyEq value l.value, []⟩
  | .varP name, value => ⟨true, [(name, value)]⟩
  | .listP elements, value => matchListPattern elements value
  | .dictP entries, value => matchDictionaryPattern entries value
  | .restP name, value =>
      match name with
      | some n => ⟨true, [(n, value)]⟩
      | none => ⟨true, []⟩
  | .typeP typeName, value =>
      match reg typeName with
      | some check => ⟨check value, []⟩
      | none => ⟨false, []⟩
termination_by p _ => 2 * sizeOf p
decreasing_by all_goals first | (simp_wf; omega) | simp_wf | omega

/-- `match_list_pattern` from `matcher.py` (taking `pattern.elements`). -/
def matchListPattern (elements : List Pattern) (value : Value) : MatchResult :=
  match seqItems value with
  | none => ⟨false, []⟩
  | some xs =>
    if elements.isEmpty then ⟨xs.length == 0, []⟩
    else
      match restIndex elements 0 with
      | some ri =>
          let beforeRest := elements.take ri
          let afterRest := elements.drop (ri + 1)
          if xs.length < beforeRest.length + afterRest.length then ⟨false, []⟩
          else
            let r1 := matchElemsAt beforeRest xs 0 ⟨true, []⟩
            let r2 := matchElemsAt afterRest xs (xs.length - afterRest.length) r1
            match elements.getD ri (.restP none) with
            | .restP (some n) =>
                r2.merge ⟨true, [(n, seqSlice value beforeRest.length (xs.length - afterRest.length))]⟩
            | _ => r2
      | none =>
          if xs.length ≠ elements.length then ⟨false, []⟩
          else matchElemsAt elements xs 0 ⟨true, []⟩
termination_by 2 * sizeOf elements + 1
decreasing_by
  all_goals simp_wf
  all_goals first
    | omega
    | (have h1 := sizeOf_take_le elements ri; omega)
    | (have h2 := sizeOf_drop_le elements (ri + 1); omega)

/-- Loop `for i, elem in enumerate(...)` matching each element pattern
against `value[start + offset]` and merging the results. -/
def matchElemsAt : List Pattern → List Value → Nat → MatchResult → MatchResult
  | [], _, _, acc => acc
  | p :: ps, xs, i, acc =>
      matchElemsAt ps xs (i + 1) (acc.merge (matchPattern emptyRegistry p (xs.getD i (.int 0))))
termination_by ps _ _ _ => 2 * sizeOf ps
decreasing_by all_goals first | (simp_wf; omega) | simp_wf | omega

/-- `match_dictionary_pattern` from `matcher.py` (taking `pattern.entries`). -/
def matchDictionaryPattern (entries : List (String × Pattern)) (value : Value) : MatchResult :=
  match value with
  | .dict d =>
      if entries.isEmpty then ⟨d.length == 0, []⟩
      else matchDictEntries entries d ⟨true, []⟩
  | _ => ⟨false, []⟩
termination_by 2 * sizeOf entries + 1
decreasing_by all_goals first | (simp_wf; omega) | simp_wf | omega

/-- Loop over declared entries: a missing key fails immediately, a
present key matches the nested pattern and merges. -/
def matchDictEntries : List (String × Pattern) → List (Value × Value) → MatchResult → MatchResult
  | [], _, acc => acc
  | (k, p) :: rest, d, acc =>
      match pyLookup d (.str k) with
      | some v => matchDictEntries rest d (acc.merge (matchPattern emptyRegistry p v))
      | none => ⟨false, []⟩
termination_by entries _ _ => 2 * sizeOf entries
decreasing_by all_goals first | (simp_wf; omega) | simp_wf | omega

end

/-!
Pattern-match code generation, from
`src/runa/patterns/generator.py` (`_generate_pattern_condition` and
`_generate_pattern_bindings`). Both build Python source text for a
pattern against a scrutinee expression string.
-/

/-- Generated Python code of a literal AST node (`visit_StringLiteral`,
`visit_NumberLiteral`, `visit_BooleanLiteral` of the Python generator). -/
def genLitCode : Lit → String
  | .strV s => "\"" ++ s.replace "\"" "\\\"" ++ "\""
  | .intV n => toString n
  | .boolV b => if b then "True" else "False"

/-- Test whether an element is a `RestPattern`. -/
def isRestP : Pattern → Bool
  | .restP _ => true
  | _ => false

mutual

/-- `_generate_pattern_condition`: the boolean test expression for a
pattern against the scrutinee expression `valueVar`. -/
def genPatternCondition : Pattern → String → String
  | .wildcard, _ => "True"
  | .literal l, valueVar => valueVar ++ " == " ++ genLitCode l
  | .varP _, _ => "True"
  | .listP elements, valueVar =>
      if !(elements.any isRestP) then
        let lengthCheck := "len(" ++ valueVar ++ ") == " ++ toString elements.length
        if elements.isEmpty then lengthCheck
        else
          "isinstance(" ++ valueVar ++ ", list) and " ++ lengthCheck ++ " and " ++
            String.intercalate " and " (genCondElems elements valueVar 0)
      else
        let listCheck := "isinstance(" ++ valueVar ++ ", list)"
        let ri := (restIndex elements 0).getD 0
        let beforeRest := elements.take ri
        let afterRest := elements.drop (ri + 1)
        let minLength := beforeRest.length + afterRest.length
        let lengthCheck := "len(" ++ valueVar ++ ") >= " ++ toString minLength
        let beforeChecks := genCondElems beforeRest valueVar 0
        let afterChecks := genCondAfterElems afterRest valueVar afterRest.length 0
        String.intercalate " and " ([listCheck, lengthCheck] ++ beforeChecks ++ afterChecks)
  | .dictP entries, valueVar =>
      if entries.isEmpty then
        "isinstance(" ++ valueVar ++ ", dict) and len(" ++ valueVar ++ ") == 0"
      else
        "isinstance(" ++ valueVar ++ ", dict) and " ++
          String.intercalate " and " (genCondDictEntries entries valueVar)
  | .restP _, _ => "True"
  | .typeP typeName, valueVar => "isinstance(" ++ valueVar ++ ", " ++ typeName ++ ")"
termination_by p _ => 2 * sizeOf p
decreasing_by
  all_goals simp_wf
  all_goals first
    | omega
    | (have h1 := sizeOf_take_le elements ((restIndex elements 0).getD 0); omega)
    | (have h2 := sizeOf_drop_le elements ((restIndex elements 0).getD 0 + 1); omega)

/-- Loop generating one condition per element at index `i`, scrutinee
sub-expression `valueVar[i]`. -/
def genCondElems : List Pattern → String → Nat → List String
  | [], _, _ => []
  | p :: ps, valueVar, i =>
      genPatternCondition p (valueVar ++ "[" ++ toString i ++ "]") ::
        genCondElems ps valueVar (i + 1)
termination_by ps _ _ => 2 * sizeOf ps

/-- Loop generating the conditions for the elements after a rest
pattern, at computed offset `len(valueVar) - (lenAfter + i)` exactly as
written in the source. -/
def genCondAfterElems : List Pattern → String → Nat → Nat → List String
  | [], _, _, _ => []
  | p :: ps, valueVar, lenAfter, i =>
      genPatternCondition p
          (valueVar ++ "[len(" ++ valueVar ++ ") - " ++ toString (lenAfter + i) ++ "]") ::
        genCondAfterElems ps valueVar lenAfter (i + 1)
termination_by ps _ _ _ => 2 * sizeOf ps

/-- Loop generating `"key" in v and <value condition>` per declared
dictionary-pattern entry. -/
def genCondDictEntries : List (String × Pattern) → String → List String
  | [], _ => []
  | (k, p) :: rest, valueVar =>
      let keyCode := genLitCode (.strV k)
      (keyCode ++ " in " ++ valueVar ++ " and " ++
          genPatternCondition p (valueVar ++ "[" ++ keyCode ++ "]")) ::
        genCondDictEntries rest valueVar
termination_by entries _ => 2 * sizeOf entries

end

mutual

/-- `_generate_pattern_bindings`: the ordered binding statements for a
pattern against the scrutinee expression `valueVar`. -/
def genPatternBindings : Pattern → String → List String
  | .varP name, valueVar =>
      if name ≠ "_" then [name ++ " = " ++ valueVar] else []
  | .listP elements, valueVar =>
      match restIndex elements 0 with
      | some ri =>
          let beforeRest := elements.take ri
          let afterRest := elements.drop (ri + 1)
          let beforeBinds := genBindElems beforeRest valueVar 0
          let restBinds :=
            match elements.getD ri (.restP none) with
            | .restP (some name) =>
                let startN := beforeRest.length
                let endN := afterRest.length
                let restExpr :=
                  if endN > 0 then
                    valueVar ++ "[" ++ toString startN ++ ":len(" ++ valueVar ++ ") - " ++
                      toString endN ++ "]"
                  else valueVar ++ "[" ++ toString startN ++ ":]"
                [name ++ " = " ++ restExpr]
            | _ => []
          let afterBinds := genBindAfterElems afterRest valueVar afterRest.length 0
          beforeBinds ++ restBinds ++ afterBinds
      | none => genBindElems elements valueVar 0
  | .dictP entries, valueVar => genBindDictEntries entries valueVar
  | _, _ => []
termination_by p _ => 2 * sizeOf p
decreasing_by
  all_goals simp_wf
  all_goals first
    | omega
    | (have h1 := sizeOf_take_le elements ri; omega)
    | (have h2 := sizeOf_drop_le elements (ri + 1); omega)

/-- Loop generating the bindings of each element at index `i`. -/
def genBindElems : List Pattern → String → Nat → List String
  | [], _, _ => []
  | p :: ps, valueVar, i =>
      genPatternBindings p (valueVar ++ "[" ++ toString i ++ "]") ++
        genBindElems ps valueVar (i + 1)
termination_by ps _ _ => 2 * sizeOf ps

/-- Loop generating the bindings of the elements after a rest pattern,
with index expression `len(valueVar) - (lenAfter + i)` as in the source. -/
def genBindAfterElems : List Pattern → String → Nat → Nat → List String
  | [], _, _, _ => []
  | p :: ps, valueVar, lenAfter, i =>
      genPatternBindings p
          (valueVar ++ "[len(" ++ valueVar ++ ") - " ++ toString (lenAfter + i) ++ "]") ++
        genBindAfterElems ps valueVar lenAfter (i + 1)
termination_by ps _ _ _ => 2 * sizeOf ps

/-- Loop generating the bindings of each dictionary-pattern entry. -/
def genBindDictEntries : List (String × Pattern) → String → List String
  | [], _ => []
  | (k, p) :: rest, valueVar =>
      genPatternBindings p (valueVar ++ "[" ++ genLitCode (.strV k) ++ "]") ++
        genBindDictEntries rest valueVar
termination_by entries _ => 2 * sizeOf entries

end

/-!
AST for the standard (core) node set, from `ast/nodes.py`, and the
semantic analyzer from `src/runa/analyzer.py`.
-/

/-- Source position attached to every node (`Position` in `ast/nodes.py`). -/
structure Position where
  line : Nat := 0
  column : Nat := 0
  file : String := "<unknown>"
deriving Repr, DecidableEq

/-- Python `str(position)`: `f"{file}:{line}:{column}"`. -/
def Position.toStr (p : Position) : String :=
  p.file ++ ":" ++ toString p.line ++ ":" ++ toString p.column

/-- Default position used throughout the closed test programs. -/
def pos0 : Position := {}

/-- Value of a `NumberLiteral` node. The lexer produces a Python `int`
or `float`; the float payload is kept only as its `str(value)` display
text (float arithmetic is never needed). -/
inductive PyNum where
  | intN (n : Int)
  | floatN (display : String)
deriving Repr, DecidableEq

mutual

/-- Expression nodes of the closed standard family (`ast/nodes.py`). A
`FunctionCall` holds positional arguments and an insertion-ordered
`named_arguments` dict. -/
inductive Expr where
  | stringLit (value : String) (pos : Position)
  | numberLit (value : PyNum) (pos : Position)
  | booleanLit (value : Bool) (pos : Position)
  | varRef (name : String) (pos : Position)
  | binOp (left : Expr) (operator : String) (right : Expr) (pos : Position)
  | call (name : String) (args : List Expr) (namedArgs : List (String × Expr)) (pos : Position)
  | listE (elements : List Expr) (pos : Position)
  | dictE (entries : List DictEntry) (pos : Position)
  | indexAccess (target : Expr) (index : Expr) (pos : Position)
deriving Repr

/-- Entry of a `DictionaryExpression` (`DictionaryEntry` in `ast/nodes.py`). -/
inductive DictEntry where
  | mk (key : Expr) (value : Expr) (pos : Position)
deriving Repr

end

/-- Statement nodes of the closed standard family (`ast/nodes.py`).
`Parameter` nodes are modelled by their name. -/
inductive Stmt where
  | decl (name : String) (value : Option Expr) (pos : Position)
  | assign (name : String) (value : Expr) (pos : Position)
  | ifS (condition : Expr) (thenBlock : List Stmt) (elseBlock : Option (List Stmt)) (pos : Position)
  | forEach (varName : String) (iterable : Expr) (body : List Stmt) (pos : Position)
  | ret (value : Option Expr) (pos : Position)
  | display (value : Expr) (message : Option Expr) (pos : Position)
  | processDef (name : String) (parameters : List String) (body : List Stmt) (pos : Position)
deriving Repr

/-- Symbol-table entry (`Symbol` in `analyzer.py`; the unused `value`
field is omitted). -/
structure Symbol where
  name : String
  symbolType : Option String := none
deriving Repr, DecidableEq

/-- One scope's symbol dict (insertion-ordered, update-in-place). -/
def Frame := List (String × Symbol)

/-- Dict membership test (`is_defined_in_current_scope`). -/
def frameHas : Frame → String → Bool
  | [], _ => false
  | (k, _) :: rest, name => k = name || frameHas rest name

/-- Dict lookup inside one scope. -/
def frameGet : Frame → String → Option Symbol
  | [], _ => none
  | (k, s) :: rest, name => if k = name then some s else frameGet rest name

/-- Python `self.symbols[name] = symbol` (`Scope.define`). -/
def frameSet : Frame → String → Symbol → Frame
  | [], name, s => [(name, s)]
  | (k, w) :: rest, name, s =>
      if k = name then (k, s) :: rest else (k, w) :: frameSet rest name s

/-- `Scope.resolve`: walk the scope chain to the root. The head of the
list is the current (innermost) scope. -/
def framesResolve : List Frame → String → Option Symbol
  | [], _ => none
  | f :: rest, name =>
      match frameGet f name with
      | some s => some s
      | none => framesResolve rest name

/-- Mutable state of a `SemanticAnalyzer` instance: the scope chain
(head = `current_scope`) and the accumulated error/warning lists.
Created once per instance in `__init__`; `analyze` does NOT reset it. -/
structure AnalyzerState where
  scopes : List Frame
  errors : List String
  warnings : List String

/-- Fresh analyzer state (`SemanticAnalyzer.__init__`). -/
def analyzerInit : AnalyzerState := ⟨[[]], [], []⟩

/-- Append a formatted semantic error (`SemanticAnalyzer.error`). -/
def AnalyzerState.addError (st : AnalyzerState) (message : String) (p : Position) : AnalyzerState :=
  { st with errors := st.errors ++ [p.toStr ++ ": " ++ message] }

/-- Enter a fresh child scope (`enter_scope`). -/
def AnalyzerState.enterScope (st : AnalyzerState) : AnalyzerState :=
  { st with scopes := [] :: st.scopes }

/-- Pop back to the parent scope (`exit_scope`). -/
def AnalyzerState.exitScope (st : AnalyzerState) : AnalyzerState :=
  { st with scopes := st.scopes.tail }

/-- Define a symbol in the current scope (`Scope.define`). -/
def AnalyzerState.define (st : AnalyzerState) (name : String) (sym : Symbol) : AnalyzerState :=
  match st.scopes with
  | [] => st
  | f :: rest => { st with scopes := frameSet f name sym :: rest }

/-- Built-in function whitelist of `visit_FunctionCall`. -/
def builtinFunctions : List String := ["format_string", "format_message"]

mutual

/-- Depth-first expression visit of `SemanticAnalyzer` (the
`visit_<Expr>` methods), threading the analyzer state. -/
def saVisitExpr : Expr → AnalyzerState → AnalyzerState
  | .stringLit _ _, st => st
  | .numberLit _ _, st => st
  | .booleanLit _ _, st => st
  | .varRef name p, st =>
      match framesResolve st.scopes name with
      | some _ => st
      | none => st.addError ("Reference to undefined variable \x27" ++ name ++ "\x27") p
  | .binOp left _ right _, st => saVisitExpr right (saVisitExpr left st)
  | .call name args namedArgs p, st =>
      let st1 :=
        match framesResolve st.scopes name with
        | some _ => st
        | none =>
            if builtinFunctions.contains name then st
            else st.addError ("Call to undefined function \x27" ++ name ++ "\x27") p
      saVisitNamedArgs namedArgs (saVisitExprs args st1)
  | .listE elements _, st => saVisitExprs elements st
  | .dictE entries _, st => saVisitDictEntries entries st
  | .indexAccess target index _, st => saVisitExpr index (saVisitExpr target st)

/-- Visit a list of expressions in order. -/
def saVisitExprs : List Expr → AnalyzerState → AnalyzerState
  | [], st => st
  | e :: rest, st => saVisitExprs rest (saVisitExpr e st)

/-- Visit the values of the `named_arguments` dict in order. -/
def saVisitNamedArgs : List (String × Expr) → AnalyzerState → AnalyzerState
  | [], st => st
  | (_, e) :: rest, st => saVisitNamedArgs rest (saVisitExpr e st)

/-- Visit dictionary entries (key then value). -/
def saVisitDictEntries : List DictEntry → AnalyzerState → AnalyzerState
  | [], st => st
  | .mk k v _ :: rest, st => saVisitDictEntries rest (saVisitExpr v (saVisitExpr k st))

end

mutual

/-- Depth-first statement visit of `SemanticAnalyzer` (the
`visit_<Stmt>` methods). -/
def saVisitStmt : Stmt → AnalyzerState → AnalyzerState
  | .decl name value p, st =>
      let st1 :=
        if frameHas (st.scopes.headD []) name then
          st.addError ("Variable \x27" ++ name ++ "\x27 is already defined in this scope") p
        else st
      let st2 :=
        match value with
        | some v => saVisitExpr v st1
        | none => st1
      st2.define name ⟨name, none⟩
  | .assign name value p, st =>
      let st1 :=
        match framesResolve st.scopes name with
        | some _ => st
        | none => st.addError ("Assignment to undefined variable \x27" ++ name ++ "\x27") p
      saVisitExpr value st1
  | .ifS condition thenBlock elseBlock _, st =>
      let st1 := saVisitExpr condition st
      let st2 := (saVisitStmts thenBlock st1.enterScope).exitScope
      match elseBlock with
      | some els => (saVisitStmts els st2.enterScope).exitScope
      | none => st2
  | .forEach varName iterable body _, st =>
      let st1 := saVisitExpr iterable st
      let st2 := st1.enterScope.define varName ⟨varName, none⟩
      (saVisitStmts body st2).exitScope
  | .ret value _, st =>
      match value with
      | some v => saVisitExpr v st
      | none => st
  | .display value message _, st =>
      let st1 := saVisitExpr value st
      match message with
      | some m => saVisitExpr m st1
      | none => st1
  | .processDef name parameters body _, st =>
      let st1 := st.define name ⟨name, some "process"⟩
      let st2 := parameters.foldl (fun s pn => s.define pn ⟨pn, none⟩) st1.enterScope
      (saVisitStmts body st2).exitScope

/-- Visit a list of statements in order (`visit_Program` loop). -/
def saVisitStmts : List Stmt → AnalyzerState → AnalyzerState
  | [], st => st
  | s :: rest, st => saVisitStmts rest (saVisitStmt s st)

end

/-- `SemanticAnalyzer.analyze`: visit the program, then report
`len(self.errors) == 0`. The state is NOT reset first, so errors,
warnings and top-level symbols of earlier calls on the same instance
are still present. -/
def analyzeSA (program : List Stmt) (st : AnalyzerState) : Bool × AnalyzerState :=
  let st2 := saVisitStmts program st
  (st2.errors.length == 0, st2)

/-!
Python code generator (`PyCodeGenerator` in `generator.py`). All visit
methods are pure string builders; only `visit_Program` appends to the
instance's `output` list, which is empty on a fresh generator.
-/

/-- Operator lexeme table of `visit_BinaryOperation` (Python target),
`operator_map.get(op, op)`. -/
def pyOpMap (op : String) : String :=
  if op = "PLUS" then "+"
  else if op = "MINUS" then "-"
  else if op = "MULTIPLIED" then "*"
  else if op = "DIVIDED" then "/"
  else if op = "MODULO" then "%"
  else if op = "GREATER" then ">"
  else if op = "LESS" then "<"
  else if op = "EQUAL" then "=="
  else if op = "NOT_EQUAL" then "!="
  else if op = "AND" then "and"
  else if op = "OR" then "or"
  else op

mutual

/-- Expression emission of `PyCodeGenerator`. -/
def pyGenExpr : Expr → String
  | .stringLit s _ => "\"" ++ s.replace "\"" "\\\"" ++ "\""
  | .numberLit v _ =>
      match v with
      | .intN n => toString n
      | .floatN display => display
  | .booleanLit b _ => if b then "True" else "False"
  | .varRef name _ => name
  | .binOp left op right _ =>
      "(" ++ pyGenExpr left ++ " " ++ pyOpMap op ++ " " ++ pyGenExpr right ++ ")"
  | .call name args namedArgs _ =>
      if name = "format_string" || name = "format_message" then
        match args with
        | a0 :: _ =>
            pyGenExpr a0 ++ ".format(" ++
              String.intercalate ", " (pyGenNamedArgs namedArgs) ++ ")"
        | [] =>
            "format_string(" ++ String.intercalate ", " (pyGenNamedArgs namedArgs) ++ ")"
      else
        name ++ "(" ++
          String.intercalate ", " (pyGenExprList args ++ pyGenNamedArgs namedArgs) ++ ")"
  | .listE elements _ => "[" ++ String.intercalate ", " (pyGenExprList elements) ++ "]"
  | .dictE entries _ => "\x7b" ++ String.intercalate ", " (pyGenDictEntries entries) ++ "\x7d"
  | .indexAccess target index _ => pyGenExpr target ++ "[" ++ pyGenExpr index ++ "]"

/-- Emit a list of expressions. -/
def pyGenExprList : List Expr → List String
  | [] => []
  | e :: rest => pyGenExpr e :: pyGenExprList rest

/-- Emit `name=value` keyword arguments in dict order. -/
def pyGenNamedArgs : List (String × Expr) → List String
  | [] => []
  | (k, v) :: rest => (k ++ "=" ++ pyGenExpr v) :: pyGenNamedArgs rest

/-- Emit `key: value` dictionary entries. -/
def pyGenDictEntries : List DictEntry → List String
  | [] => []
  | .mk k v _ :: rest => (pyGenExpr k ++ ": " ++ pyGenExpr v) :: pyGenDictEntries rest

end

mutual

/-- Statement emission of `PyCodeGenerator`. -/
def pyGenStmt : Stmt → String
  | .decl name value _ =>
      name ++ " = " ++ (match value with | some v => pyGenExpr v | none => "None")
  | .assign name value _ => name ++ " = " ++ pyGenExpr value
  | .ifS condition thenBlock elseBlock _ =>
      let ifCode := "if " ++ pyGenExpr condition ++ ":" ++ "\n" ++
        String.intercalate "\n" (pyGenBlock thenBlock)
      match elseBlock with
      | some els =>
          ifCode ++ "\nelse:" ++ "\n" ++ String.intercalate "\n" (pyGenBlock els)
      | none => ifCode
  | .forEach varName iterable body _ =>
      "for " ++ varName ++ " in " ++ pyGenExpr iterable ++ ":" ++ "\n" ++
        String.intercalate "\n" (pyGenBlock body)
  | .ret value _ =>
      match value with
      | some v => "return " ++ pyGenExpr v
      | none => "return"
  | .display value message _ =>
      match message with
      | some m => "print(" ++ pyGenExpr value ++ ", " ++ pyGenExpr m ++ ")"
      | none => "print(" ++ pyGenExpr value ++ ")"
  | .processDef name parameters body _ =>
      let header := "def " ++ name ++ "(" ++ String.intercalate ", " parameters ++ "):"
      let bodyLines := pyGenBlock body
      let bodyLines := if bodyLines.isEmpty then ["    pass"] else bodyLines
      header ++ "\n" ++ String.intercalate "\n" bodyLines

/-- Block-body loop: emit each statement, keep the truthy (nonempty)
ones, and prefix four spaces (only to the first line of a nested
multi-line statement, exactly as the source's `"    " + stmt_code`). -/
def pyGenBlock : List Stmt → List String
  | [] => []
  | s :: rest =>
      let code := pyGenStmt s
      if code ≠ "" then ("    " ++ code) :: pyGenBlock rest
      else pyGenBlock rest

end

/-- Top-level statement loop of `visit_Program` (no indent prefix). -/
def pyGenTop : List Stmt → List String
  | [] => []
  | s :: rest =>
      let code := pyGenStmt s
      if code ≠ "" then code :: pyGenTop rest else pyGenTop rest

/-- `PyCodeGenerator.generate` on a `Program` node with a fresh
generator instance (`self.output == []`). -/
def pyGenerate (program : List Stmt) : String :=
  String.intercalate "\n"
    (["# Generated Python code from Runa", "from runa.runtime import *", ""] ++
      pyGenTop program)

/-!
JavaScript code generator (`JsCodeGenerator` in
`src/runa/targets/js_generator.py`), restricted to the closed standard
node family. Visit methods may raise (`visit_FunctionCall` reads
`node.args`, an attribute that `FunctionCall` nodes do not have — the
field is named `arguments` — so every function call raises
`AttributeError`); generation therefore returns `Except`.
-/

/-- `self._indent()`: `"    "` repeated `current_indent` times. -/
def jsIndent : Nat → String
  | 0 => ""
  | n + 1 => jsIndent n ++ "    "

/-- Operator table of the JavaScript `visit_BinaryOperation`
(`op_map.get(op, "/* Unknown operator */")`). -/
def jsOpMap (op : String) : String :=
  if op = "PLUS" then "+"
  else if op = "MINUS" then "-"
  else if op = "MULTIPLIED" then "*"
  else if op = "DIVIDED" then "/"
  else if op = "MODULO" then "%"
  else if op = "POWER" then "**"
  else if op = "EQUAL" then "==="
  else if op = "NOT_EQUAL" then "!=="
  else if op = "GREATER" then ">"
  else if op = "LESS" then "<"
  else if op = "GREATER_EQUAL" then ">="
  else if op = "LESS_EQUAL" then "<="
  else if op = "AND" then "&&"
  else if op = "OR" then "||"
  else "/* Unknown operator */"

mutual

/-- Expression emission of `JsCodeGenerator`. A `FunctionCall` node
raises: for the name `Display` the method recurses into
`visit_DisplayStatement`, which reads the missing `node.value`
attribute; otherwise it iterates the missing `node.args` attribute. -/
def jsGenExpr : Expr → Except String String
  | .stringLit s _ => .ok ("\"" ++ s.replace "\"" "\\\"" ++ "\"")
  | .numberLit v _ =>
      .ok (match v with
        | .intN n => toString n
        | .floatN display => display)
  | .booleanLit b _ => .ok (if b then "true" else "false")
  | .varRef name _ => .ok name
  | .binOp left op right _ => do
      let l ← jsGenExpr left
      let r ← jsGenExpr right
      return "(" ++ l ++ " " ++ jsOpMap op ++ " " ++ r ++ ")"
  | .call name _ _ _ =>
      if name = "Display" then
        .error "\x27FunctionCall\x27 object has no attribute \x27value\x27"
      else
        .error "\x27FunctionCall\x27 object has no attribute \x27args\x27"
  | .listE elements _ => do
      let es ← jsGenExprList elements
      return "[" ++ String.intercalate ", " es ++ "]"
  | .dictE entries _ => do
      let es ← jsGenDictEntries entries
      return "\x7b" ++ String.intercalate ", " es ++ "\x7d"
  | .indexAccess target index _ => do
      let t ← jsGenExpr target
      let i ← jsGenExpr index
      return t ++ "[" ++ i ++ "]"

/-- Emit each element of a list expression. -/
def jsGenExprList : List Expr → Except String (List String)
  | [] => .ok []
  | e :: rest => do
      let c ← jsGenExpr e
      let cs ← jsGenExprList rest
      return c :: cs

/-- Emit `key: value` per dictionary entry. -/
def jsGenDictEntries : List DictEntry → Except String (List String)
  | [] => .ok []
  | .mk k v _ :: rest => do
      let kc ← jsGenExpr k
      let vc ← jsGenExpr v
      let cs ← jsGenDictEntries rest
      return (kc ++ ": " ++ vc) :: cs

end

mutual

/-- Statement emission of `JsCodeGenerator` at the given indent level. -/
def jsGenStmt (indent : Nat) : Stmt → Except String String
  | .decl name value _ => do
      let v ← match value with
        | some v => jsGenExpr v
        | none => pure "null"
      return jsIndent indent ++ "let " ++ name ++ " = " ++ v ++ ";"
  | .assign name value _ => do
      let v ← jsGenExpr value
      return jsIndent indent ++ name ++ " = " ++ v ++ ";"
  | .ifS condition thenBlock elseBlock _ => do
      let c ← jsGenExpr condition
      let thenStmts ← jsGenStmtBlock (indent + 1) thenBlock
      let parts := (jsIndent indent ++ "if (" ++ c ++ ") \x7b") :: thenStmts ++
        [jsIndent indent ++ "\x7d"]
      let parts ← match elseBlock with
        | some els => do
            let elseStmts ← jsGenStmtBlock (indent + 1) els
            pure (parts ++ [jsIndent indent ++ "else \x7b"] ++ elseStmts ++
              [jsIndent indent ++ "\x7d"])
        | none => pure parts
      return String.intercalate "\n" parts
  | .forEach varName iterable body _ => do
      let it ← jsGenExpr iterable
      let bodyStmts ← jsGenStmtBlock (indent + 1) body
      return String.intercalate "\n"
        ((jsIndent indent ++ "for (let " ++ varName ++ " of " ++ it ++ ") \x7b") ::
          bodyStmts ++ [jsIndent indent ++ "\x7d"])
  | .ret value _ => do
      let v ← match value with
        | some v => jsGenExpr v
        | none => pure ""
      return jsIndent indent ++ "return " ++ v ++ ";"
  | .display value message _ => do
      match message with
      | some m => do
          let vc ← jsGenExpr value
          let mc ← jsGenExpr m
          return jsIndent indent ++ "console.log(" ++ mc ++ ", " ++ vc ++ ");"
      | none => do
          let vc ← jsGenExpr value
          return jsIndent indent ++ "console.log(" ++ vc ++ ");"
  | .processDef name parameters body _ => do
      let bodyStmts ← jsGenStmtBlock (indent + 1) body
      return String.intercalate "\n"
        ((jsIndent indent ++ "function " ++ name ++ "(" ++
            String.intercalate ", " parameters ++ ") \x7b") ::
          bodyStmts ++ [jsIndent indent ++ "\x7d"])

/-- Block loop: emit each statement and keep the truthy (nonempty)
results. -/
def jsGenStmtBlock (indent : Nat) : List Stmt → Except String (List String)
  | [] => .ok []
  | s :: rest => do
      let code ← jsGenStmt indent s
      let codes ← jsGenStmtBlock indent rest
      return if code ≠ "" then code :: codes else codes

end

/-- Text returned by `JsCodeGenerator._generate_runtime`. -/
def jsRuntime : String :=
  "// Runa Runtime Library for JavaScript\n\n// Utility function for working with named arguments\nfunction extractNamedArgs(args, defaults) \x7b\n    if (args.length === 1 && typeof args[0] === \x27object\x27 && args[0] !== null) \x7b\n        return \x7b ...defaults, ...args[0] \x7d;\n    \x7d\n    return defaults;\n\x7d\n\n// String formatting for Runa\nfunction formatString(str, ...args) \x7b\n    if (args.length === 1 && typeof args[0] === \x27object\x27 && args[0] !== null) \x7b\n        // Named formatting\n        let result = str;\n        for (const [key, value] of Object.entries(args[0])) \x7b\n            const placeholder = new RegExp(`\\\x7b$\x7bkey\x7d\\\x7d`, \x27g\x27);\n            result = result.replace(placeholder, value);\n        \x7d\n        return result;\n    \x7d else \x7b\n        // Positional formatting\n        return str.replace(/\\\x7b\\d+\\\x7d/g, match => \x7b\n            const index = parseInt(match.slice(1, -1));\n            return index < args.length ? args[index] : match;\n        \x7d);\n    \x7d\n\x7d\n\n// Add utility functions for lists and dictionaries\nArray.prototype.add = function(item) \x7b\n    this.push(item);\n    return this;\n\x7d;\n\nArray.prototype.remove = function(item) \x7b\n    const index = this.indexOf(item);\n    if (index !== -1) \x7b\n        this.splice(index, 1);\n    \x7d\n    return this;\n\x7d;\n\n// Length operation\nfunction length(obj) \x7b\n    if (Array.isArray(obj)) \x7b\n        return obj.length;\n    \x7d else if (typeof obj === \x27string\x27) \x7b\n        return obj.length;\n    \x7d else if (obj && typeof obj === \x27object\x27) \x7b\n        return Object.keys(obj).length;\n    \x7d\n    return 0;\n\x7d\n"

/-- Top-level loop of the JavaScript `visit_Program` plus the runtime
prefix. -/
def jsGenerate (program : List Stmt) : Except String String := do
  let stmts ← jsGenStmtBlock 0 program
  return jsRuntime ++ "\n\n" ++ String.intercalate "\n" stmts

/-!
Transpiler driver (`Transpiler` in `src/runa/transpiler.py`), standard
(non-advanced) mode. The PLY parser is not modelled; `transpile` is
parameterised by the parse outcome. The Python generator never raises
on the closed standard node family (every visit method is defined), so
its `Except` wrapper is always `ok`.
-/

/-- Python generation as the fallible collaborator seen by `transpile`
(total on the standard family). -/
def pyGenerateE (program : List Stmt) : Except String String := .ok (pyGenerate program)

/-- `get_generator`: the supported-target table (`python`, `javascript`
and the alias `js`). -/
def getGenerator (target : String) : Option (List Stmt → Except String String) :=
  if target = "python" then some pyGenerateE
  else if target = "javascript" || target = "js" then some jsGenerate
  else none

/-- Python `str.capitalize()`. -/
def pyCapitalize (s : String) : String :=
  match s.data with
  | [] => ""
  | c :: rest => String.mk (c.toUpper :: rest.map Char.toLower)

/-- Result quadruple of `Transpiler.transpile`. -/
structure TranspileOutput where
  code : Option String
  valid : Bool
  errors : List String
  warnings : List String
deriving Repr

/-- `Transpiler.transpile` in standard mode, threading the analyzer
state owned by the `Transpiler` instance. `parse` abstracts
`self.parser.parse` (returning `none` on a parse failure) and `gen` is
the target generator's `generate` (an `Except` because it may raise). -/
def transpileStd (parse : String → Option (List Stmt))
    (gen : List Stmt → Except String String) (target : String)
    (source : String) (doAnalyze : Bool) (st : AnalyzerState) :
    TranspileOutput × AnalyzerState :=
  match parse source with
  | none => (⟨none, false, ["Failed to parse the source code"], []⟩, st)
  | some ast =>
    if doAnalyze then
      let (valid, st2) := analyzeSA ast st
      if !valid then (⟨none, false, st2.errors, st2.warnings⟩, st2)
      else
        match gen ast with
        | .ok code => (⟨some code, valid, st2.errors, st2.warnings⟩, st2)
        | .error e =>
            let st3 := { st2 with errors := st2.errors ++
              ["Error generating " ++ pyCapitalize target ++ " code: " ++ e] }
            (⟨none, false, st3.errors, st3.warnings⟩, st3)
    else
      match gen ast with
      | .ok code => (⟨some code, true, [], []⟩, st)
      | .error e =>
          (⟨none, false, ["Error generating " ++ pyCapitalize target ++ " code: " ++ e], []⟩, st)

/-!
Type layer (`src/runa/types/nodes.py` and `inference.py`).

The Python `Type` classes define no `__eq__`, so `==` on types is
object identity. Inside a `TypeInferer` every primitive type and the
`Any` type in play is one of the singleton objects created by
`_initialize_built_ins`, so identity on those coincides with name
equality, while composite type nodes (`ListType`, `UnionType`, ...) are
freshly constructed and therefore identity-distinct; `tyEqPy` models
`==` accordingly (`GenericType`/`ParameterizedType` are never produced
by the embedded code paths and are omitted). -/
inductive Ty where
  | prim (name : String)
  | anyT
  | union (types : List Ty)
  | listT (elementType : Ty)
  | dictT (keyType valueType : Ty)
  | funcT (parameterTypes : List Ty) (returnType : Ty)
deriving Repr

/-- Python `==` (identity) on type objects under the singleton
discipline described above. -/
def tyEqPy : Ty → Ty → Bool
  | .prim a, .prim b => a == b
  | .anyT, .anyT => true
  | _, _ => false

/-- Python `isinstance(t, AnyType)`. -/
def isAnyTy : Ty → Bool
  | .anyT => true
  | _ => false

/-- `_is_numeric_type`: identity with the `Integer` or `Float`
singleton. -/
def isNumericTy (t : Ty) : Bool :=
  tyEqPy t (.prim "Integer") || tyEqPy t (.prim "Float")

mutual

/-- `TypeInferer._types_are_compatible`, mirroring the source's check
order: identity, `Any`, numeric pair, structural list/dict recursion,
then union handling (left union first), else incompatible. The
source's early-return chain is flattened into one shape match: a
list/dict pair whose components are incompatible falls through to the
union checks, which cannot apply to it, so the fall-through result is
exactly the component compatibility. -/
def typesCompatible (t1 t2 : Ty) : Bool :=
  if tyEqPy t1 t2 then true
  else if isAnyTy t1 || isAnyTy t2 then true
  else if isNumericTy t1 && isNumericTy t2 then true
  else
    match t1, t2 with
    | .listT e1, .listT e2 => typesCompatible e1 e2
    | .dictT k1 v1, .dictT k2 v2 => typesCompatible k1 k2 && typesCompatible v1 v2
    | .union ts, u2 => compatAnyLeft ts u2
    | u1, .union ts => compatAnyRight u1 ts
    | _, _ => false
termination_by sizeOf t1 + sizeOf t2
decreasing_by all_goals first | (simp_wf; omega) | simp_wf | omega

/-- Python `any(compat(t, type2) for t in type1.types)`. -/
def compatAnyLeft : List Ty → Ty → Bool
  | [], _ => false
  | t :: ts, t2 => typesCompatible t t2 || compatAnyLeft ts t2
termination_by ts t2 => sizeOf ts + sizeOf t2
decreasing_by all_goals first | (simp_wf; omega) | simp_wf | omega

/-- Python `any(compat(type1, t) for t in type2.types)`. -/
def compatAnyRight : Ty → List Ty → Bool
  | _, [] => false
  | t1, t :: ts => typesCompatible t1 t || compatAnyRight t1 ts
termination_by t1 ts => sizeOf t1 + sizeOf ts
decreasing_by all_goals first | (simp_wf; omega) | simp_wf | omega

end

mutual

/-- `TypeInferer._unify_types`. -/
def unifyTypes (t1 t2 : Ty) : Ty :=
  if tyEqPy t1 t2 then t1
  else if isAnyTy t1 then t2
  else if isAnyTy t2 then t1
  else if isNumericTy t1 && isNumericTy t2 then
    if tyEqPy t1 (.prim "Float") || tyEqPy t2 (.prim "Float") then .prim "Float"
    else .prim "Integer"
  else
    match t1, t2 with
    | .listT e1, .listT e2 => .listT (unifyTypes e1 e2)
    | .dictT k1 v1, .dictT k2 v2 => .dictT (unifyTypes k1 k2) (unifyTypes v1 v2)
    | .union ts, _ =>
        if !(compatAnyLeft ts t2) then .union (ts ++ [t2]) else .union ts
    | _, .union ts =>
        if !(compatAnyRight t1 ts) then .union (t1 :: ts) else .union ts
    | _, _ => .union [t1, t2]
termination_by sizeOf t1 + sizeOf t2
decreasing_by all_goals first | (simp_wf; omega) | simp_wf | omega

end

/-- One `TypeEnvironment` frame: variable and function type dicts. -/
structure TyFrame where
  vars : List (String × Ty)
  funcs : List (String × Ty)

/-- Chain of type environments, head innermost (each frame's `parent`
is the next list entry). -/
def TyEnv := List TyFrame

/-- Dict lookup helper on string-keyed type dicts. -/
def tyDictGet : List (String × Ty) → String → Option Ty
  | [], _ => none
  | (k, t) :: rest, name => if k = name then some t else tyDictGet rest name

/-- Dict update-in-place helper. -/
def tyDictSet : List (String × Ty) → String → Ty → List (String × Ty)
  | [], name, t => [(name, t)]
  | (k, u) :: rest, name, t =>
      if k = name then (k, t) :: rest else (k, u) :: tyDictSet rest name t

/-- `TypeEnvironment.get_variable_type`: walk the parent chain. -/
def getVariableType : TyEnv → String → Option Ty
  | [], _ => none
  | f :: rest, name =>
      match tyDictGet f.vars name with
      | some t => some t
      | none => getVariableType rest name

/-- `TypeEnvironment.set_variable_type` (always on the receiver frame). -/
def setVariableType (env : TyEnv) (name : String) (t : Ty) : TyEnv :=
  match env with
  | [] => []
  | f :: rest => { f with vars := tyDictSet f.vars name t } :: rest

/-- `TypeEnvironment.get_function_type`: walk the parent chain. -/
def getFunctionType : TyEnv → String → Option Ty
  | [], _ => none
  | f :: rest, name =>
      match tyDictGet f.funcs name with
      | some t => some t
      | none => getFunctionType rest name

/-- `TypeEnvironment.set_function_type` (always on the receiver frame). -/
def setFunctionType (env : TyEnv) (name : String) (t : Ty) : TyEnv :=
  match env with
  | [] => []
  | f :: rest => { f with funcs := tyDictSet f.funcs name t } :: rest

/-- `TypeEnvironment.enter_scope`: a fresh child frame. -/
def tyEnterScope (env : TyEnv) : TyEnv := ⟨[], []⟩ :: env

mutual

/-- `TypeInferer.infer_type`: assign a type to every expression node
(unknown constructs default to `Any`). -/
def inferType : Expr → TyEnv → Ty
  | .stringLit _ _, _ => .prim "String"
  | .numberLit v _, _ =>
      match v with
      | .intN _ => .prim "Integer"
      | .floatN _ => .prim "Float"
  | .booleanLit _ _, _ => .prim "Boolean"
  | .varRef name _, env =>
      match getVariableType env name with
      | some t => t
      | none => .anyT
  | .binOp left op right _, env =>
      let leftType := inferType left env
      let rightType := inferType right env
      if op == "PLUS" || op == "MINUS" || op == "MULTIPLIED" ||
          op == "DIVIDED" || op == "MODULO" then
        if op == "PLUS" &&
            (tyEqPy leftType (.prim "String") || tyEqPy rightType (.prim "String")) then
          .prim "String"
        else if isNumericTy leftType && isNumericTy rightType then
          if tyEqPy leftType (.prim "Float") || tyEqPy rightType (.prim "Float") then
            .prim "Float"
          else .prim "Integer"
        else .anyT
      else if op == "GREATER" || op == "LESS" || op == "EQUAL" || op == "NOT_EQUAL" then
        .prim "Boolean"
      else if op == "AND" || op == "OR" then .prim "Boolean"
      else .anyT
  | .call name _ _ _, env =>
      match getFunctionType env name with
      | some (.funcT _ returnType) => returnType
      | _ => .anyT
  | .listE elements _, env =>
      match elements with
      | [] => .listT .anyT
      | first :: rest =>
          let elemType := inferType first env
          inferListLoop elemType rest env
  | .dictE entries _, env =>
      match entries with
      | [] => .dictT .anyT .anyT
      | .mk k v _ :: rest =>
          let keyType := inferType k env
          let valueType := inferType v env
          inferDictLoop keyType valueType rest env
  | .indexAccess target _ _, env =>
      match inferType target env with
      | .listT elementType => elementType
      | .dictT _ valueType => valueType
      | _ => .anyT

/-- Loop of `_infer_list_expression`: compare every further element
with the first element's type; on the first incompatibility return
`List[Any]`, otherwise keep the first element's type. -/
def inferListLoop (elemType : Ty) (rest : List Expr) (env : TyEnv) : Ty :=
  match rest with
  | [] => .listT elemType
  | e :: es =>
      let otherType := inferType e env
      if !typesCompatible elemType otherType then .listT .anyT
      else inferListLoop elemType es env

/-- Loop of `_infer_dictionary_expression`: degrade the running key or
value type to `Any` on an incompatible entry and keep scanning. -/
def inferDictLoop (keyType valueType : Ty) (rest : List DictEntry) (env : TyEnv) : Ty :=
  match rest with
  | [] => .dictT keyType valueType
  | .mk k v _ :: es =>
      let otherKeyType := inferType k env
      let otherValueType := inferType v env
      let keyType2 := if !typesCompatible keyType otherKeyType then Ty.anyT else keyType
      let valueType2 := if !typesCompatible valueType otherValueType then Ty.anyT else valueType
      inferDictLoop keyType2 valueType2 es env

end

mutual

/-- `TypeInferer._analyze_statement`. Child scopes are created fresh,
only read their parents through the chain, and are discarded when the
block ends, so the parent environment is returned unchanged. -/
def tiAnalyzeStatement : Stmt → TyEnv → TyEnv
  | .decl name value _, env =>
      let valueType := match value with
        | some v => inferType v env
        | none => .anyT
      setVariableType env name valueType
  | .assign name value _, env =>
      let valueType := inferType value env
      match getVariableType env name with
      | some varType => setVariableType env name (unifyTypes varType valueType)
      | none => setVariableType env name valueType
  | .ifS condition thenBlock elseBlock _, env =>
      let _ := inferType condition env
      let _ := tiAnalyzeStatements thenBlock (tyEnterScope env)
      match elseBlock with
      | some els =>
          let _ := tiAnalyzeStatements els (tyEnterScope env)
          env
      | none => env
  | .forEach varName iterable body _, env =>
      let iterableType := inferType iterable env
      let elemType := match iterableType with
        | .listT elementType => elementType
        | _ => Ty.anyT
      let loopEnv := setVariableType (tyEnterScope env) varName elemType
      let _ := tiAnalyzeStatements body loopEnv
      env
  | .processDef name parameters body _, env =>
      let paramTypes := parameters.map (fun _ => Ty.anyT)
      let funcType := Ty.funcT paramTypes .anyT
      let env2 := setFunctionType env name funcType
      let funcEnv := parameters.foldl (fun e p => setVariableType e p .anyT) (tyEnterScope env2)
      let _ := tiAnalyzeStatements body funcEnv
      env2
  | .ret value _, env =>
      match value with
      | some v =>
          let _ := inferType v env
          env
      | none => env
  | .display value message _, env =>
      let _ := inferType value env
      match message with
      | some m =>
          let _ := inferType m env
          env
      | none => env

/-- Statement loop of `analyze_program`. -/
def tiAnalyzeStatements : List Stmt → TyEnv → TyEnv
  | [], env => env
  | s :: rest, env => tiAnalyzeStatements rest (tiAnalyzeStatement s env)

end

/-- `TypeInferer.analyze_program`: a fresh `TypeEnvironment` (without
the built-in function entries of `self.env`), then each top-level
statement in order. -/
def tiAnalyzeProgram (program : List Stmt) : TyEnv :=
  tiAnalyzeStatements program [⟨[], []⟩]

/-!
Lexer (`RunaLexer` in `src/runa/lexer.py`), built on PLY. PLY combines
the token rules into one master regex: function rules in definition
order first, then string rules by decreasing pattern length; at each
position the first alternative that matches wins (Python `re`
alternation, not longest match). The ignored characters are space and
tab; an unmatched character is reported and skipped (`t_error`).
-/

/-- Token kinds of the lexer's closed `tokens` tuple. -/
inductive TokKind where
  | LET | SET | BE | TO | AS | IF | OTHERWISE | FOR | EACH | IN
  | PROCESS | CALLED | THAT | TAKES | RETURN | DISPLAY | WITH
  | DEFINE | CONTAINING | WHEN | WHILE | IS | NOT | AND | OR
  | PLUS | MINUS | MULTIPLIED | DIVIDED | MODULO
  | GREATER | LESS | EQUAL | NOT_EQUAL
  | COLON | COMMA | LPAREN | RPAREN | LBRACKET | RBRACKET
  | INDENT | DEDENT | NEWLINE
  | STRING | NUMBER | BOOLEAN | ID
deriving Repr, DecidableEq

/-- Literal keyword match (the simple `r'word'` rules): number of
characters matched at the start of the input, if any. -/
def litMatch (kw : List Char) (s : List Char) : Option Nat :=
  if kw.isPrefixOf s then some kw.length else none

/-- Python regex `\s` on the ASCII range. -/
def isPySpace (c : Char) : Bool :=
  c = ' ' || c = '\t' || c = '\n' || c = '\r' || c = '\x0b' || c = '\x0c'

/-- Greedy `\s+`. -/
def spaces1 (s : List Char) : Option Nat :=
  let n := (s.takeWhile isPySpace).length
  if n = 0 then none else some n

/-- Greedy `w1(\s+w2)?` (the two-word operator rules such as
`greater(\s+than)?`; no backtracking is needed because `w2` starts with
a non-space character). -/
def optPhrase (w1 w2 : List Char) (s : List Char) : Option Nat :=
  match litMatch w1 s with
  | none => none
  | some n1 =>
      match spaces1 (s.drop n1) with
      | none => some n1
      | some ns =>
          match litMatch w2 ((s.drop n1).drop ns) with
          | none => some n1
          | some n2 => some (n1 + ns + n2)

/-- Rule `t_NOT_EQUAL`: `not\s+equal(\s+to)?`. -/
def matchNotEqual (s : List Char) : Option Nat :=
  match litMatch "not".data s with
  | none => none
  | some n1 =>
      match spaces1 (s.drop n1) with
      | none => none
      | some ns =>
          match optPhrase "equal".data "to".data ((s.drop n1).drop ns) with
          | none => none
          | some n2 => some (n1 + ns + n2)

/-- Rule `t_STRING`: `"[^"]*"`. -/
def matchStringLit (s : List Char) : Option Nat :=
  match s with
  | '"' :: rest =>
      let body := rest.takeWhile (fun c => c ≠ '"')
      match rest.drop body.length with
      | '"' :: _ => some (body.length + 2)
      | _ => none
  | _ => none

/-- Rule `t_NUMBER`: `\d+(\.\d+)?`. -/
def matchNumber (s : List Char) : Option Nat :=
  let d1 := (s.takeWhile Char.isDigit).length
  if d1 = 0 then none
  else
    match s.drop d1 with
    | '.' :: rest =>
        let d2 := (rest.takeWhile Char.isDigit).length
        if d2 = 0 then some d1 else some (d1 + 1 + d2)
    | _ => some d1

/-- Rule `t_BOOLEAN`: `True|False`. -/
def matchBoolean (s : List Char) : Option Nat :=
  match litMatch "True".data s with
  | some n => some n
  | none => litMatch "False".data s

/-- Rule `t_ID`: `[a-zA-Z][a-zA-Z0-9_]*`. -/
def matchId (s : List Char) : Option Nat :=
  match s with
  | c :: rest =>
      if c.isAlpha then some (1 + (rest.takeWhile (fun d => d.isAlpha || d.isDigit || d = '_')).length)
      else none
  | [] => none

/-- Rule `t_NEWLINE`: `\n+`. -/
def matchNewline (s : List Char) : Option Nat :=
  let n := (s.takeWhile (fun c => c = '\n')).length
  if n = 0 then none else some n

/-- Master rule list in PLY order: the function rules in their
definition order in `lexer.py`, then the string rules (all of disjoint
single characters) sorted by decreasing pattern length. -/
def lexRules : List (TokKind × (List Char → Option Nat)) :=
  [ (.LET, litMatch "Let".data), (.SET, litMatch "Set".data),
    (.BE, litMatch "be".data), (.TO, litMatch "to".data),
    (.AS, litMatch "as".data), (.IF, litMatch "If".data),
    (.OTHERWISE, litMatch "Otherwise".data), (.FOR, litMatch "For".data),
    (.EACH, litMatch "each".data), (.IN, litMatch "in".data),
    (.PROCESS, litMatch "Process".data), (.CALLED, litMatch "called".data),
    (.THAT, litMatch "that".data), (.TAKES, litMatch "takes".data),
    (.RETURN, litMatch "Return".data), (.DISPLAY, litMatch "Display".data),
    (.WITH, litMatch "with".data), (.DEFINE, litMatch "Define".data),
    (.CONTAINING, litMatch "containing".data), (.WHEN, litMatch "When".data),
    (.WHILE, litMatch "While".data), (.IS, litMatch "is".data),
    (.NOT, litMatch "not".data), (.AND, litMatch "and".data),
    (.OR, litMatch "or".data),
    (.GREATER, optPhrase "greater".data "than".data),
    (.LESS, optPhrase "less".data "than".data),
    (.EQUAL, optPhrase "equal".data "to".data),
    (.NOT_EQUAL, matchNotEqual),
    (.PLUS, litMatch "plus".data), (.MINUS, litMatch "minus".data),
    (.MULTIPLIED, optPhrase "multiplied".data "by".data),
    (.DIVIDED, optPhrase "divided".data "by".data),
    (.MODULO, litMatch "modulo".data),
    (.STRING, matchStringLit), (.NUMBER, matchNumber),
    (.BOOLEAN, matchBoolean), (.ID, matchId), (.NEWLINE, matchNewline),
    (.LPAREN, litMatch "(".data), (.RPAREN, litMatch ")".data),
    (.LBRACKET, litMatch "[".data), (.RBRACKET, litMatch "]".data),
    (.COLON, litMatch ":".data), (.COMMA, litMatch ",".data) ]

/-- First rule of the master list that matches at the given suffix. -/
def firstRuleMatch : List (TokKind × (List Char → Option Nat)) → List Char → Option (TokKind × Nat)
  | [], _ => none
  | (k, m) :: rest, s =>
      match m s with
      | some n => some (k, n)
      | none => firstRuleMatch rest s

/-- PLY `Lexer.token`: skip ignored characters (space, tab), apply the
master regex, skip one character on an unmatched character (`t_error`),
return `(kind, startPos, endPos)` where `endPos` is the new `lexpos`. -/
def coreNextToken (data : List Char) : Nat → Nat → Option (TokKind × Nat × Nat)
  | 0, _ => none
  | fuel + 1, pos =>
      if pos ≥ data.length then none
      else
        let c := data.getD pos ' '
        if c = ' ' || c = '\t' then coreNextToken data fuel (pos + 1)
        else
          match firstRuleMatch lexRules (data.drop pos) with
          | some (k, n) => some (k, pos, pos + n)
          | none => coreNextToken data fuel (pos + 1)

/-- Backward scan of `RunaLexer.token`: starting at
`line_start = current_pos - 1`, decrement while `lexdata[line_start]`
is not a newline; the returned value is `line_start + 1` (0 when the
scan ran past the start of the buffer). -/
def lineScanBack (data : List Char) : Nat → Nat
  | 0 => 0
  | j + 1 => if data.getD j ' ' = '\n' then j + 1 else lineScanBack data j

/-- Indentation measure of `RunaLexer.token`: spaces count 1, tabs
count 4, over `range(line_start + 1, current_pos)`. -/
def indentWidth (data : List Char) (a b : Nat) : Nat :=
  (List.range (b - a)).foldl
    (fun acc i =>
      let c := data.getD (a + i) ' '
      if c = ' ' then acc + 1 else if c = '\t' then acc + 4 else acc) 0

/-- Wrapper-lexer state: current `lexpos`, the indentation stack (head
is the Python list's last element, i.e. the top), and the queued
`INDENT`/`DEDENT` tokens. -/
structure LexState where
  pos : Nat
  stack : List Nat
  queue : List TokKind

/-- Pop the indentation stack while the new indentation is below the
top, emitting one `DEDENT` per pop. -/
def popToLevel (indent : Nat) : List Nat → List Nat × List TokKind
  | [] => ([], [])
  | top :: rest =>
      if indent < top then
        let (s, d) := popToLevel indent rest
        (s, .DEDENT :: d)
      else (top :: rest, [])

/-- `RunaLexer.token`: return queued tokens first; otherwise fetch the
next core token; after a `NEWLINE`, measure the indentation of the text
between the scanned-back line start and the current `lexpos` and
push/pop the indentation stack, queueing `INDENT`/`DEDENT` tokens. -/
def wrapToken (data : List Char) (st : LexState) : Option (TokKind × LexState) :=
  match st.queue with
  | t :: rest => some (t, { st with queue := rest })
  | [] =>
      match coreNextToken data (data.length - st.pos + 1) st.pos with
      | none => none
      | some (k, _, e) =>
          let st1 : LexState := { st with pos := e }
          if k = .NEWLINE then
            let currentPos := e
            let lineStart1 := lineScanBack data currentPos
            let indent := indentWidth data lineStart1 currentPos
            let currentIndent := st1.stack.headD 0
            if indent > currentIndent then
              some (.NEWLINE,
                { st1 with stack := indent :: st1.stack, queue := st1.queue ++ [.INDENT] })
            else if indent < currentIndent then
              let (newStack, dedents) := popToLevel indent st1.stack
              some (.NEWLINE, { st1 with stack := newStack, queue := st1.queue ++ dedents })
            else some (.NEWLINE, st1)
          else some (k, st1)

/-- Driver loop collecting tokens until `token()` returns `None` (or
fuel runs out; the chosen fuel is enough for every input because each
step either consumes a queued token or advances `lexpos`). -/
def tokenizeLoop (data : List Char) : Nat → LexState → List TokKind
  | 0, _ => []
  | fuel + 1, st =>
      match wrapToken data st with
      | none => []
      | some (t, st2) => t :: tokenizeLoop data fuel st2

/-- Tokenize a whole input with a freshly built lexer
(`build` seeds `indentation_stack = [0]`, `token_queue = []`). -/
def tokenize (s : String) : List TokKind :=
  tokenizeLoop s.data (2 * s.data.length + 2) ⟨0, [0], []⟩

/-!
Specification-side helper: the variable-bind names a pattern tree can
produce (used to state the pattern-matching theorems).
-/

mutual

/-- All bind names of a pattern tree (variable patterns and named rest
patterns, recursively). -/
def patternBindNames : Pattern → List String
  | .varP name => [name]
  | .restP (some n) => [n]
  | .restP none => []
  | .listP elements => patternBindNamesList elements
  | .dictP entries => patternBindNamesEntries entries
  | .wildcard => []
  | .literal _ => []
  | .typeP _ => []

/-- Bind names of a list of patterns. -/
def patternBindNamesList : List Pattern → List String
  | [] => []
  | p :: ps => patternBindNames p ++ patternBindNamesList ps

/-- Bind names of dictionary-pattern entries. -/
def patternBindNamesEntries : List (String × Pattern) → List String
  | [] => []
  | (_, p) :: rest => patternBindNames p ++ patternBindNamesEntries rest

end

/-- Projection of a dictionary-expression entry's key. -/
def DictEntry.key : DictEntry → Expr
  | .mk k _ _ => k

/-- Projection of a dictionary-expression entry's value. -/
def DictEntry.val : DictEntry → Expr
  | .mk _ v _ => v

/-!
Concrete test programs used by the closed theorems.
-/

/-- Program whose initializer references an undefined variable. -/
def astUndef : List Stmt := [.decl "x" (some (.varRef "y" pos0)) pos0]

/-- Semantically clean one-declaration program. -/
def astOk : List Stmt := [.decl "z" (some (.numberLit (.intN 1) pos0)) pos0]

/-- The spec's end-to-end program: a process `add` returning `a plus b`
and `Let sum be add with a as 2 and b as 3`. -/
def addSumProg : List Stmt :=
  [.processDef "add" ["a", "b"]
      [.ret (some (.binOp (.varRef "a" pos0) "PLUS" (.varRef "b" pos0) pos0)) pos0] pos0,
   .decl "sum"
      (some (.call "add" []
        [("a", .numberLit (.intN 2) pos0), ("b", .numberLit (.intN 3) pos0)] pos0)) pos0]

/-!
Theorems. Helper lemmas first, then one named theorem (plus
counterexample/witness) per claim.
-/

section LexerLemmas

/-- Every position inside a `takeWhile` prefix satisfies the predicate. -/
theorem takeWhile_getD_of_lt (p : Char → Bool) :
    ∀ (s : List Char) (j : Nat), j < (s.takeWhile p).length → p (s.getD j ' ') = true := by
  intro s
  induction s with
  | nil => intro j h; simp [List.takeWhile] at h
  | cons c rest ih =>
      intro j h
      by_cases hc : p c
      · cases j with
        | zero => simpa [List.getD] using hc
        | succ i =>
            simp only [List.takeWhile_cons, hc, if_true] at h
            simp only [List.length_cons] at h
            exact ih i (by simpa using h)
      · simp [List.takeWhile_cons, hc] at h

/-- A successful `t_NEWLINE` match has positive length and its last
matched character is a newline. -/
theorem matchNewline_spec (s : List Char) (nl : Nat) (h : matchNewline s = some nl) :
    1 ≤ nl ∧ s.getD (nl - 1) ' ' = '\n' := by
  simp only [matchNewline] at h
  split at h
  · cases h
  · rename_i h0
    cases h
    refine ⟨by omega, ?_⟩
    have := takeWhile_getD_of_lt (fun c => c = '\n') s
      ((s.takeWhile (fun c => c = '\n')).length - 1) (by omega)
    simpa using this

/-- A match reported by `firstRuleMatch` comes from a rule in the list. -/
theorem firstRuleMatch_mem :
    ∀ (rules : List (TokKind × (List Char → Option Nat))) (s : List Char) (k : TokKind) (n : Nat),
      firstRuleMatch rules s = some (k, n) → ∃ m, (k, m) ∈ rules ∧ m s = some n := by
  intro rules
  induction rules with
  | nil => intro s k n h; simp [firstRuleMatch] at h
  | cons r rest ih =>
      intro s k n h
      obtain ⟨k', m⟩ := r
      simp only [firstRuleMatch] at h
      cases hm : m s with
      | some n' =>
          rw [hm] at h
          obtain ⟨rfl, rfl⟩ : k' = k ∧ n' = n := by
            constructor <;> (cases h; rfl)
          exact ⟨m, by simp, hm⟩
      | none =>
          rw [hm] at h
          obtain ⟨m2, hmem, hm2⟩ := ih s k n h
          exact ⟨m2, by simp [hmem], hm2⟩

/-- The only rule of kind `NEWLINE` in the master list is `t_NEWLINE`. -/
theorem lexRules_newline_rule :
    ∀ p ∈ lexRules, p.1 = TokKind.NEWLINE → p.2 = matchNewline := by
  intro p hp
  fin_cases hp <;> simp

/-- No rule of the master list produces `INDENT` or `DEDENT` (those are
synthesized only through the queue). -/
theorem lexRules_no_indent_dedent :
    ∀ p ∈ lexRules, p.1 ≠ TokKind.INDENT ∧ p.1 ≠ TokKind.DEDENT := by
  intro p hp
  fin_cases hp <;> simp

/-- Any token returned by the core lexer is a rule token, hence neither
`INDENT` nor `DEDENT`; and a `NEWLINE` token ends just after a newline
character. -/
theorem coreNextToken_spec (data : List Char) :
    ∀ (fuel pos : Nat) (k : TokKind) (s e : Nat),
      coreNextToken data fuel pos = some (k, s, e) →
      (k ≠ TokKind.INDENT ∧ k ≠ TokKind.DEDENT) ∧
        (k = TokKind.NEWLINE → 1 ≤ e ∧ data.getD (e - 1) ' ' = '\n') := by
  intro fuel
  induction fuel with
  | zero => intro pos k s e h; simp [coreNextToken] at h
  | succ f ih =>
      intro pos k s e h
      unfold coreNextToken at h
      by_cases hend : pos ≥ data.length
      · simp [hend] at h
      · simp only [hend, if_false] at h
        by_cases hws : data.getD pos ' ' = ' ' || data.getD pos ' ' = '\t'
        · rw [if_pos hws] at h
          exact ih (pos + 1) k s e h
        · rw [if_neg hws] at h
          cases hm : firstRuleMatch lexRules (data.drop pos) with
          | none =>
              rw [hm] at h
              exact ih (pos + 1) k s e h
          | some kn =>
              obtain ⟨k', n⟩ := kn
              rw [hm] at h
              obtain ⟨m, hmem, hms⟩ := firstRuleMatch_mem lexRules (data.drop pos) k' n hm
              cases h
              refine ⟨lexRules_no_indent_dedent _ hmem, ?_⟩
              intro hk
              subst hk
              have hmn : m = matchNewline := lexRules_newline_rule _ hmem rfl
              subst hmn
              obtain ⟨h1, h2⟩ := matchNewline_spec _ _ hms
              constructor
              · omega
              · have hidx : (data.drop pos).getD (n - 1) ' ' = data.getD (pos + (n - 1)) ' ' := by
                  simp [List.getD_eq_getElem?_getD, List.getElem?_drop]
                rw [hidx] at h2
                have heq : pos + n - 1 = pos + (n - 1) := by omega
                rw [heq]
                exact h2

/-- After the backward scan, a buffer position just past a newline
yields line start equal to the current position. -/
theorem lineScanBack_after_newline (data : List Char) (e : Nat)
    (h1 : 1 ≤ e) (h2 : data.getD (e - 1) ' ' = '\n') : lineScanBack data e = e := by
  obtain ⟨j, rfl⟩ : ∃ j, e = j + 1 := ⟨e - 1, by omega⟩
  simp only [lineScanBack]
  simp only [Nat.add_sub_cancel] at h2
  rw [h2]
  simp

/-- The indentation measured over an empty range is zero. -/
theorem indentWidth_self (data : List Char) (e : Nat) : indentWidth data e e = 0 := by
  simp [indentWidth]

/-- One wrapper-lexer step from the degenerate state (`stack = [0]`,
empty queue) emits neither `INDENT` nor `DEDENT` and stays degenerate:
after any `NEWLINE` the backward scan stops at the newline character
just consumed, so the measured indentation is always 0. -/
theorem wrapToken_preserves (data : List Char) (st : LexState)
    (hs : st.stack = [0]) (hq : st.queue = []) (t : TokKind) (st2 : LexState)
    (h : wrapToken data st = some (t, st2)) :
    (t ≠ TokKind.INDENT ∧ t ≠ TokKind.DEDENT) ∧ st2.stack = [0] ∧ st2.queue = [] := by
  cases hcore : coreNextToken data (data.length - st.pos + 1) st.pos with
  | none =>
      have heq : wrapToken data st = none := by
        unfold wrapToken
        rw [hq, hcore]
      rw [heq] at h
      cases h
  | some kse =>
      obtain ⟨k, s, e⟩ := kse
      obtain ⟨⟨hki, hkd⟩, hnl⟩ := coreNextToken_spec data _ _ _ _ _ hcore
      by_cases hk : k = TokKind.NEWLINE
      · subst hk
        obtain ⟨he1, he2⟩ := hnl rfl
        have hscan : lineScanBack data e = e := lineScanBack_after_newline data e he1 he2
        have heq : wrapToken data st = some (TokKind.NEWLINE, { st with pos := e }) := by
          unfold wrapToken
          rw [hq, hcore]
          simp [hscan, indentWidth_self, hs]
        rw [heq] at h
        cases h
        exact ⟨⟨by simp, by simp⟩, by simp [hs], by simp [hq]⟩
      · have heq : wrapToken data st = some (k, { st with pos := e }) := by
          unfold wrapToken
          rw [hq, hcore]
          simp [hk]
        rw [heq] at h
        cases h
        exact ⟨⟨hki, hkd⟩, by simp [hs], by simp [hq]⟩

/-- The driver loop from the degenerate state never emits `INDENT` or
`DEDENT`. -/
theorem tokenizeLoop_no_indent (data : List Char) :
    ∀ (fuel : Nat) (st : LexState), st.stack = [0] → st.queue = [] →
      TokKind.INDENT ∉ tokenizeLoop data fuel st ∧
        TokKind.DEDENT ∉ tokenizeLoop data fuel st := by
  intro fuel
  induction fuel with
  | zero => intro st _ _; simp [tokenizeLoop]
  | succ f ih =>
      intro st hs hq
      unfold tokenizeLoop
      cases hw : wrapToken data st with
      | none => simp
      | some tst =>
          obtain ⟨t, st2⟩ := tst
          obtain ⟨⟨hti, htd⟩, hs2, hq2⟩ := wrapToken_preserves data st hs hq t st2 hw
          obtain ⟨ih1, ih2⟩ := ih st2 hs2 hq2
          constructor
          · simp only [List.mem_cons, not_or]
            exact ⟨fun hEq => hti hEq.symm, ih1⟩
          · simp only [List.mem_cons, not_or]
            exact ⟨fun hEq => htd hEq.symm, ih2⟩

end LexerLemmas

/-- Claim C9 (confirmed, degenerately): for every input — well-formed
or not, with or without a trailing newline, indented last line or not —
the number of `INDENT` tokens emitted over the whole input equals the
number of `DEDENT` tokens. In this code the equality holds because both
counts are always zero: after a `NEWLINE` the wrapper scans backwards
from `lexpos - 1`, which is the final newline character of the match
itself, so the scan stops immediately, the measured indentation is
always 0, and the indentation stack never pushes or pops. -/
theorem c9_indent_dedent_balance (input : String) :
    (tokenize input).count TokKind.INDENT = (tokenize input).count TokKind.DEDENT ∧
      (tokenize input).count TokKind.INDENT = 0 ∧
      (tokenize input).count TokKind.DEDENT = 0 := by
  obtain ⟨h1, h2⟩ := tokenizeLoop_no_indent input.data (2 * input.data.length + 2) ⟨0, [0], []⟩ rfl rfl
  have hi : (tokenize input).count TokKind.INDENT = 0 := List.count_eq_zero.mpr h1
  have hd : (tokenize input).count TokKind.DEDENT = 0 := List.count_eq_zero.mpr h2
  exact ⟨by rw [hi, hd], hi, hd⟩

/-- Claim C8, counterexample: tokenizing `"not equal to"` does NOT
produce the single `NOT_EQUAL` token; the `t_NOT` rule is defined
before `t_NOT_EQUAL` and PLY tries rules in definition order, so the
result is a `NOT` token followed by an `EQUAL` token. -/
theorem c8_not_equal_two_tokens :
    tokenize "not equal to" = [TokKind.NOT, TokKind.EQUAL] ∧
      tokenize "not equal to" ≠ [TokKind.NOT_EQUAL] := by
  constructor
  · decide
  · decide

/-- Claim C8 as amended: every multi-word operator phrase except
`"not equal to"` is recognized as one token (greedy optional-suffix
rules), but `"not equal to"` is split into `NOT` followed by `EQUAL`
because the earlier-defined `t_NOT` rule wins at that position (PLY
master-regex alternation is first-match by definition order, not
longest match). -/
theorem c8_multiword_operators :
    tokenize "greater than" = [TokKind.GREATER] ∧
      tokenize "less than" = [TokKind.LESS] ∧
      tokenize "equal to" = [TokKind.EQUAL] ∧
      tokenize "multiplied by" = [TokKind.MULTIPLIED] ∧
      tokenize "divided by" = [TokKind.DIVIDED] ∧
      tokenize "not equal to" = [TokKind.NOT, TokKind.EQUAL] := by
  refine ⟨by decide, by decide, by decide, by decide, by decide, by decide⟩

section AnalyzerLemmas

/-- Error-list extension is transitive. -/
theorem errsTrans {a b c : AnalyzerState}
    (h1 : ∃ l, b.errors = a.errors ++ l) (h2 : ∃ l, c.errors = b.errors ++ l) :
    ∃ l, c.errors = a.errors ++ l := by
  obtain ⟨l1, e1⟩ := h1
  obtain ⟨l2, e2⟩ := h2
  exact ⟨l1 ++ l2, by rw [e2, e1, List.append_assoc]⟩

/-- Unchanged errors give a trivial extension. -/
theorem errsRefl (st st2 : AnalyzerState) (h : st2.errors = st.errors) :
    ∃ l, st2.errors = st.errors ++ l := ⟨[], by rw [h, List.append_nil]⟩

/-- `define` leaves the error list unchanged. -/
theorem saDefine_errors (st : AnalyzerState) (n : String) (s : Symbol) :
    (st.define n s).errors = st.errors := by
  unfold AnalyzerState.define
  cases st.scopes <;> rfl

/-- Binding process parameters leaves the error list unchanged. -/
theorem saFoldDefine_errors (ps : List String) :
    ∀ st : AnalyzerState,
      (ps.foldl (fun s pn => s.define pn ⟨pn, none⟩) st).errors = st.errors := by
  induction ps with
  | nil => intro st; rfl
  | cons p rest ih =>
      intro st
      rw [List.foldl_cons, ih, saDefine_errors]

/-- The expression visitor only ever appends to the error list. -/
theorem saVisitExpr_ext (e : Expr) (st : AnalyzerState) :
    ∃ l, (saVisitExpr e st).errors = st.errors ++ l := by
  refine saVisitExpr.induct
    (fun e st => ∃ l, (saVisitExpr e st).errors = st.errors ++ l)
    (fun des st => ∃ l, (saVisitDictEntries des st).errors = st.errors ++ l)
    (fun es st => ∃ l, (saVisitExprs es st).errors = st.errors ++ l)
    (fun nas st => ∃ l, (saVisitNamedArgs nas st).errors = st.errors ++ l)
    ?_ ?_ ?_ ?_ ?_ ?_ ?_ ?_ ?_ ?_ ?_ ?_ ?_ ?_ ?_ ?_ e st
  · intro v p st
    exact errsRefl st _ rfl
  · intro v p st
    exact errsRefl st _ rfl
  · intro v p st
    exact errsRefl st _ rfl
  · intro name p st s hres
    refine errsRefl st _ ?_
    show (saVisitExpr (.varRef name p) st).errors = st.errors
    unfold saVisitExpr
    rw [hres]
  · intro name p st hres
    refine ⟨[Position.toStr p ++ ": " ++ ("Reference to undefined variable \x27" ++ name ++ "\x27")], ?_⟩
    show (saVisitExpr (.varRef name p) st).errors = _
    unfold saVisitExpr
    rw [hres]
    rfl
  · intro left op right p st ih2 ih1
    exact errsTrans ih2 ih1
  · intro name args namedArgs p st st1 ih2 ih1
    refine errsTrans (errsTrans (b := st1) ?_ ih2) ih1
    show ∃ l, st1.errors = st.errors ++ l
    simp only [st1]
    cases hres : framesResolve st.scopes name with
    | some s => exact errsRefl st _ rfl
    | none =>
        by_cases hb : builtinFunctions.contains name
        · refine errsRefl st _ ?_
          rw [if_pos hb]
        · refine ⟨[Position.toStr p ++ ": " ++ ("Call to undefined function \x27" ++ name ++ "\x27")], ?_⟩
          rw [if_neg hb]
          rfl
  · intro elements p st ih1
    exact ih1
  · intro entries p st ih1
    exact ih1
  · intro target index p st ih2 ih1
    exact errsTrans ih2 ih1
  · intro st
    exact errsRefl st _ rfl
  · intro e rest st ih2 ih1
    exact errsTrans ih2 ih1
  · intro st
    exact errsRefl st _ rfl
  · intro k e rest st ih2 ih1
    exact errsTrans ih2 ih1
  · intro st
    exact errsRefl st _ rfl
  · intro k v p rest st ih3 ih2 ih1
    exact errsTrans (errsTrans ih3 ih2) ih1

/-- The statement visitor only ever appends to the error list. -/
theorem saVisitStmt_ext (s : Stmt) (st : AnalyzerState) :
    ∃ l, (saVisitStmt s st).errors = st.errors ++ l := by
  refine saVisitStmt.induct
    (fun s st => ∃ l, (saVisitStmt s st).errors = st.errors ++ l)
    (fun ss st => ∃ l, (saVisitStmts ss st).errors = st.errors ++ l)
    ?_ ?_ ?_ ?_ ?_ ?_ ?_ ?_ ?_ ?_ ?_ ?_ s st
  · intro name value p st
    have h1 : ∃ l, (if frameHas (st.scopes.headD []) name then
        st.addError ("Variable \x27" ++ name ++ "\x27 is already defined in this scope") p
      else st).errors = st.errors ++ l := by
      split
      · exact ⟨[Position.toStr p ++ ": " ++
          ("Variable \x27" ++ name ++ "\x27 is already defined in this scope")], rfl⟩
      · exact errsRefl st st rfl
    have h2 : ∃ l, (saVisitStmt (.decl name value p) st).errors =
        (if frameHas (st.scopes.headD []) name then
          st.addError ("Variable \x27" ++ name ++ "\x27 is already defined in this scope") p
        else st).errors ++ l := by
      cases value with
      | some v =>
          refine errsTrans (saVisitExpr_ext v _) (errsRefl _ _ ?_)
          show (AnalyzerState.define _ name ⟨name, none⟩).errors = _
          rw [saDefine_errors]
      | none =>
          refine errsRefl _ _ ?_
          show (AnalyzerState.define _ name ⟨name, none⟩).errors = _
          rw [saDefine_errors]
    exact errsTrans h1 h2
  · intro name value p st
    have h1 : ∃ l, (match framesResolve st.scopes name with
      | some _ => st
      | none => st.addError ("Assignment to undefined variable \x27" ++ name ++ "\x27") p).errors
        = st.errors ++ l := by
      cases hres : framesResolve st.scopes name with
      | some s => exact errsRefl st st rfl
      | none =>
          exact ⟨[Position.toStr p ++ ": " ++
            ("Assignment to undefined variable \x27" ++ name ++ "\x27")], rfl⟩
    exact errsTrans h1 (saVisitExpr_ext value _)
  · intro cond thenB p st st1 st2 els ihThen ihElse
    exact errsTrans (errsTrans (saVisitExpr_ext cond st) ihThen) ihElse
  · intro cond thenB p st st1 ihThen
    exact errsTrans (saVisitExpr_ext cond st) ihThen
  · intro varName iterable body p st st1 st2 ihBody
    refine errsTrans (saVisitExpr_ext iterable st) ?_
    refine errsTrans (b := st2) (errsRefl _ _ ?_) ihBody
    show (AnalyzerState.define _ varName ⟨varName, none⟩).errors = _
    rw [saDefine_errors]
    rfl
  · intro p st v
    exact saVisitExpr_ext v st
  · intro p st
    exact errsRefl st st rfl
  · intro value p st m
    exact errsTrans (saVisitExpr_ext value st) (saVisitExpr_ext m _)
  · intro value p st
    exact saVisitExpr_ext value st
  · intro name params body p st st1 st2 ihBody
    refine errsTrans (b := st2) (errsRefl _ _ ?_) ihBody
    show (params.foldl (fun s pn => s.define pn ⟨pn, none⟩) st1.enterScope).errors = _
    rw [saFoldDefine_errors]
    show (st.define name ⟨name, some "process"⟩).errors = _
    rw [saDefine_errors]
  · intro st
    exact errsRefl st st rfl
  · intro s rest st ih2 ih1
    exact errsTrans ih2 ih1

/-- The statement-list visitor only ever appends to the error list. -/
theorem saVisitStmts_ext (ss : List Stmt) :
    ∀ st : AnalyzerState, ∃ l, (saVisitStmts ss st).errors = st.errors ++ l := by
  induction ss with
  | nil => intro st; exact errsRefl st st rfl
  | cons s rest ih =>
      intro st
      exact errsTrans (saVisitStmt_ext s st) (ih _)

end AnalyzerLemmas

/-- Claim C2, counterexample: two independent compilations through the
same analyzer instance are NOT independent. Analyzing a clean program
on a fresh analyzer reports valid with no errors, but analyzing it
after a failing program on the same instance reports invalid, with the
first program's errors still present. -/
theorem c2_state_persists_counterexample :
    (analyzeSA astUndef analyzerInit).1 = false ∧
      (analyzeSA astOk analyzerInit).1 = true ∧
      (analyzeSA astOk analyzerInit).2.errors = [] ∧
      (analyzeSA astOk (analyzeSA astUndef analyzerInit).2).1 = false ∧
      (analyzeSA astOk (analyzeSA astUndef analyzerInit).2).2.errors ≠ [] := by
  refine ⟨rfl, rfl, rfl, rfl, by decide⟩

/-- Claim C2 as amended: mutable compiler state persists across
`analyze` calls on one `SemanticAnalyzer`/`Transpiler` instance. Every
call only appends to the instance's error list, and `analyze` reports
`len(errors) == 0`, so any error accumulated by an earlier compilation
forces every later compilation on that instance to report invalid.
Independence holds only across fresh pipeline instances. -/
theorem c2_analyzer_state_persists (program : List Stmt) (st : AnalyzerState) :
    (∃ newErrors, (analyzeSA program st).2.errors = st.errors ++ newErrors) ∧
      (st.errors ≠ [] → (analyzeSA program st).1 = false) := by
  obtain ⟨l, hl⟩ := saVisitStmts_ext program st
  constructor
  · exact ⟨l, hl⟩
  · intro hne
    show ((saVisitStmts program st).errors.length == 0) = false
    rw [hl]
    simp only [List.length_append, beq_eq_false_iff_ne]
    intro hzero
    exact hne (List.eq_nil_of_length_eq_zero (by omega))

/-- Witness for the amended C2: a stale error forces the next analyze
call on the same instance to report invalid. -/
theorem c2_analyzer_state_persists_witness :
    (⟨[[]], ["stale error"], []⟩ : AnalyzerState).errors ≠ [] ∧
      (analyzeSA astOk ⟨[[]], ["stale error"], []⟩).1 = false :=
  ⟨by decide, (c2_analyzer_state_persists astOk ⟨[[]], ["stale error"], []⟩).2 (by decide)⟩

/-- Claim C7, counterexample: for the spec's end-to-end program, the
type layer infers `sum` as `Any`, not `Integer`: `analyze_program`
records untyped process definitions with return type `Any`
(`return_type = self.any_type`), and function-call inference returns
that recorded return type. -/
theorem c7_sum_inferred_any_counterexample :
    getVariableType (tiAnalyzeProgram addSumProg) "sum" = some Ty.anyT ∧
      some Ty.anyT ≠ some (Ty.prim "Integer") := by
  exact ⟨rfl, by simp⟩

/-- Claim C7 as amended: for the end-to-end `add`/`sum` program the
semantic analyzer reports valid with zero errors, but the type layer
infers `sum` as `Any` (there is no return-type inference for untyped
process definitions). -/
theorem c7_end_to_end_types :
    (analyzeSA addSumProg analyzerInit).1 = true ∧
      (analyzeSA addSumProg analyzerInit).2.errors = [] ∧
      getVariableType (tiAnalyzeProgram addSumProg) "sum" = some Ty.anyT :=
  ⟨rfl, rfl, rfl⟩

section DictPatternLemmas

/-- The dictionary-pattern entry loop consults the scrutinee only
through lookups of the declared keys: scrutinees agreeing on those
lookups match identically. -/
theorem matchDictEntries_congr :
    ∀ (entries : List (String × Pattern)) (d1 d2 : List (Value × Value)) (acc : MatchResult),
      (∀ kp ∈ entries, pyLookup d1 (.str kp.1) = pyLookup d2 (.str kp.1)) →
      matchDictEntries entries d1 acc = matchDictEntries entries d2 acc := by
  intro entries
  induction entries with
  | nil =>
      intro d1 d2 acc h
      simp [matchDictEntries]
  | cons kp rest ih =>
      intro d1 d2 acc h
      obtain ⟨k, p⟩ := kp
      have hk : pyLookup d1 (.str k) = pyLookup d2 (.str k) := h (k, p) (by simp)
      simp only [matchDictEntries, hk]
      cases hl : pyLookup d2 (.str k) with
      | some v => exact ih d1 d2 _ (fun kp hm => h kp (by simp [hm]))
      | none => rfl

end DictPatternLemmas

/-- Claim C5, counterexample: the dictionary pattern with zero declared
entries does NOT ignore extra keys — it matches only the empty
dictionary. A scrutinee with one (undeclared) key fails to match, and
the compiled test for the empty dictionary pattern explicitly requires
`len(v) == 0`. -/
theorem c5_empty_dict_pattern_counterexample :
    (matchPattern emptyRegistry (.dictP []) (.dict [(.str "a", .int 1)])).success = false ∧
      genPatternCondition (.dictP []) "v" = "isinstance(v, dict) and len(v) == 0" := by
  constructor
  · simp [matchPattern, matchDictionaryPattern]
  · simp only [genPatternCondition]
    rfl

/-- Claim C5 as amended: dictionary-pattern matching is open-world for
every pattern with at least one declared entry (the match consults the
scrutinee only through the declared keys, so extra keys never affect
the result), but the pattern with zero declared entries is closed-world:
it matches exactly the empty dictionary. -/
theorem c5_dict_pattern_open_world :
    (∀ value : Value, (matchPattern emptyRegistry (.dictP []) value).success = true ↔
        ∃ d, value = .dict d ∧ d.length = 0) ∧
      (∀ (entries : List (String × Pattern)) (d1 d2 : List (Value × Value)),
        entries ≠ [] →
        (∀ kp ∈ entries, pyLookup d1 (.str kp.1) = pyLookup d2 (.str kp.1)) →
        matchPattern emptyRegistry (.dictP entries) (.dict d1) =
          matchPattern emptyRegistry (.dictP entries) (.dict d2)) := by
  constructor
  · intro value
    cases value <;> simp [matchPattern, matchDictionaryPattern]
  · intro entries d1 d2 hne h
    have hempty : entries.isEmpty = false := by
      cases entries with
      | nil => exact absurd rfl hne
      | cons e es => rfl
    simp only [matchPattern, matchDictionaryPattern, hempty, Bool.false_eq_true, if_false]
    exact matchDictEntries_congr entries d1 d2 ⟨true, []⟩ h

/-- Witness for the amended C5, on the spec's own example: the pattern
`{"role": "admin"}` matches the scrutinee with the extra key `active`
exactly as it matches the minimal scrutinee (and succeeds on both),
while `{"role": "user"}` does not match. -/
theorem c5_dict_pattern_open_world_witness :
    matchPattern emptyRegistry (.dictP [("role", .literal (.strV "admin"))])
        (.dict [(.str "role", .str "admin")]) =
      matchPattern emptyRegistry (.dictP [("role", .literal (.strV "admin"))])
        (.dict [(.str "role", .str "admin"), (.str "active", .bool true)]) ∧
      (matchPattern emptyRegistry (.dictP [("role", .literal (.strV "admin"))])
        (.dict [(.str "role", .str "admin"), (.str "active", .bool true)])).success = true ∧
      (matchPattern emptyRegistry (.dictP [("role", .literal (.strV "admin"))])
        (.dict [(.str "role", .str "user")])).success = false := by
  refine ⟨c5_dict_pattern_open_world.2 [("role", .literal (.strV "admin"))]
      [(.str "role", .str "admin")] [(.str "role", .str "admin"), (.str "active", .bool true)]
      (by simp) ?_, ?_, ?_⟩
  · intro kp hm
    simp only [List.mem_singleton] at hm
    subst hm
    simp [pyLookup, pyEq]
  · simp [matchPattern, matchDictionaryPattern, matchDictEntries, pyLookup, pyEq,
      MatchResult.merge, Lit.value]
  · simp [matchPattern, matchDictionaryPattern, matchDictEntries, pyLookup, pyEq,
      MatchResult.merge, Lit.value]

/-- Claim C3, counterexample: a pattern repeating the bind name `x` in
two sibling positions is NOT rejected at pattern-compile time. The
binding generator emits both assignments (the second textually shadows
the first), and the runtime matcher defers the conflict to a runtime
value comparison: the match fails for `[1, 2]` but succeeds for
`[1, 1]`. -/
theorem c3_duplicate_bind_not_rejected :
    genPatternBindings (.listP [.varP "x", .varP "x"]) "v" = ["x = v[0]", "x = v[1]"] ∧
      (matchPattern emptyRegistry (.listP [.varP "x", .varP "x"])
        (.list [.int 1, .int 2])).success = false ∧
      matchPattern emptyRegistry (.listP [.varP "x", .varP "x"]) (.list [.int 1, .int 1]) =
        ⟨true, [("x", .int 1)]⟩ := by
  refine ⟨?_, ?_, ?_⟩
  · simp only [genPatternBindings, genBindElems, restIndex]
    rfl
  · simp [matchPattern, matchListPattern, matchElemsAt, MatchResult.merge, restIndex,
      seqItems, bindingsGet, bindingsUpdate, bindingsSet, pyEq]
  · simp [matchPattern, matchListPattern, matchElemsAt, MatchResult.merge, restIndex,
      seqItems, bindingsGet, bindingsUpdate, bindingsSet, pyEq]

/-- Claim C3 as amended: duplicate sibling bind names are not rejected
at pattern-compile time. The binding generator emits one assignment per
occurrence (so the last occurrence wins when the generated code runs),
and the runtime matcher resolves the duplicate at match time: the match
succeeds exactly when the duplicated positions hold `==`-equal values,
binding the name to the later occurrence's value. -/
theorem c3_duplicate_bind_semantics (name : String) (h : name ≠ "_") (v1 v2 : Value) :
    genPatternBindings (.listP [.varP name, .varP name]) "v" =
      [name ++ " = " ++ "v[0]", name ++ " = " ++ "v[1]"] ∧
      matchPattern emptyRegistry (.listP [.varP name, .varP name]) (.list [v1, v2]) =
        (if pyEq v1 v2 then ⟨true, [(name, v2)]⟩ else ⟨false, []⟩) := by
  constructor
  · simp [genPatternBindings, genBindElems, restIndex, h]
    exact ⟨rfl, rfl⟩
  · by_cases hpe : pyEq v1 v2 <;>
      simp [matchPattern, matchListPattern, matchElemsAt, MatchResult.merge, restIndex,
        seqItems, bindingsGet, bindingsUpdate, bindingsSet, hpe]

/-- Witness for the amended C3 at concrete inputs. -/
theorem c3_duplicate_bind_semantics_witness :
    ("x" : String) ≠ "_" ∧
      genPatternBindings (.listP [.varP "x", .varP "x"]) "v" =
        ["x" ++ " = " ++ "v[0]", "x" ++ " = " ++ "v[1]"] ∧
      matchPattern emptyRegistry (.listP [.varP "x", .varP "x"]) (.list [.int 3, .int 4]) =
        (if pyEq (.int 3) (.int 4) then ⟨true, [("x", .int 4)]⟩ else ⟨false, []⟩) := by
  have h := c3_duplicate_bind_semantics "x" (by decide) (.int 3) (.int 4)
  exact ⟨by decide, h.1, h.2⟩

section InferenceLemmas

/-- `Any` is compatible with every type (the second check of
`_types_are_compatible`). -/
theorem typesCompatible_anyT_left (t : Ty) : typesCompatible .anyT t = true := by
  cases t <;> simp [typesCompatible, tyEqPy, isAnyTy]

/-- Loop of `_infer_list_expression`: the result is the first element's
type when every later element is compatible with it, `Any` otherwise. -/
theorem inferListLoop_spec (t : Ty) (rest : List Expr) (env : TyEnv) :
    inferListLoop t rest env =
      (if rest.all (fun e => typesCompatible t (inferType e env)) then Ty.listT t
        else Ty.listT .anyT) := by
  induction rest with
  | nil => simp [inferListLoop]
  | cons e es ih =>
      by_cases hc : typesCompatible t (inferType e env)
      · simp [inferListLoop, hc, ih]
      · simp [inferListLoop, hc]

/-- Loop of `_infer_dictionary_expression`: key and value components
degrade to `Any` independently, exactly when some later entry's
component is incompatible with the first entry's component. -/
theorem inferDictLoop_spec :
    ∀ (rest : List DictEntry) (k v : Ty) (env : TyEnv),
      inferDictLoop k v rest env =
        Ty.dictT
          (if rest.all (fun ent => typesCompatible k (inferType ent.key env)) then k else .anyT)
          (if rest.all (fun ent => typesCompatible v (inferType ent.val env)) then v else .anyT) := by
  intro rest
  induction rest with
  | nil => intro k v env; simp [inferDictLoop]
  | cons ent es ih =>
      intro k v env
      obtain ⟨ke, ve, pe⟩ := ent
      have hAll : ∀ t : Ty, es.all (fun ent => typesCompatible .anyT (inferType (ent.key) env)) = true ∧
          es.all (fun ent => typesCompatible .anyT (inferType (ent.val) env)) = true := by
        intro t
        constructor <;> exact List.all_eq_true.mpr (fun ent _ => typesCompatible_anyT_left _)
      by_cases hk : typesCompatible k (inferType ke env) <;>
        by_cases hv : typesCompatible v (inferType ve env) <;>
        simp [inferDictLoop, hk, hv, ih, DictEntry.key, DictEntry.val,
          (hAll .anyT).1, (hAll .anyT).2]

end InferenceLemmas

/-- Claim C6, counterexample: a list literal holding an Integer and a
Float infers `List[Integer]`, not `List[Float]` — the loop of
`_infer_list_expression` never unifies; it keeps the first element's
type when the later elements are merely compatible. -/
theorem c6_container_inference_counterexample :
    inferType (.listE [.numberLit (.intN 1) pos0, .numberLit (.floatN "2.5") pos0] pos0)
        [⟨[], []⟩] = .listT (.prim "Integer") ∧
      Ty.listT (.prim "Integer") ≠ Ty.listT (.prim "Float") := by
  constructor
  · simp [inferType, inferListLoop, typesCompatible, tyEqPy, isAnyTy, isNumericTy]
  · simp

/-- Claim C6 as amended: container-literal inference compares
every later element against the FIRST element's inferred type (no
unification and no promotion): if all later elements are compatible
with it the container carries the first element's type, and on any
incompatibility the element (resp. key/value) component falls back to
`Any`, without reporting an error (the inferer has no error channel at
all). -/
theorem c6_container_inference_first_element :
    (∀ (first : Expr) (rest : List Expr) (env : TyEnv) (p : Position),
      (∀ e ∈ rest, typesCompatible (inferType first env) (inferType e env) = true) →
      inferType (.listE (first :: rest) p) env = .listT (inferType first env)) ∧
    (∀ (first : Expr) (rest : List Expr) (env : TyEnv) (p : Position),
      (∃ e ∈ rest, typesCompatible (inferType first env) (inferType e env) = false) →
      inferType (.listE (first :: rest) p) env = .listT .anyT) ∧
    (∀ (ke ve : Expr) (pe : Position) (rest : List DictEntry) (env : TyEnv) (p : Position),
      inferType (.dictE (.mk ke ve pe :: rest) p) env =
        Ty.dictT
          (if rest.all (fun ent => typesCompatible (inferType ke env) (inferType ent.key env))
            then inferType ke env else .anyT)
          (if rest.all (fun ent => typesCompatible (inferType ve env) (inferType ent.val env))
            then inferType ve env else .anyT)) := by
  refine ⟨?_, ?_, ?_⟩
  · intro first rest env p hall
    have : rest.all (fun e => typesCompatible (inferType first env) (inferType e env)) = true :=
      List.all_eq_true.mpr hall
    simp [inferType, inferListLoop_spec, this]
  · intro first rest env p hex
    have : rest.all (fun e => typesCompatible (inferType first env) (inferType e env)) = false := by
      obtain ⟨e, hm, hf⟩ := hex
      rw [List.all_eq_false]
      exact ⟨e, hm, by simp [hf]⟩
    simp [inferType, inferListLoop_spec, this]
  · intro ke ve pe rest env p
    simp [inferType, inferDictLoop_spec]

/-- Witness for the amended C6 at concrete inputs: two Integer
elements are compatible, and the inferred type is `List[Integer]`. -/
theorem c6_container_inference_first_element_witness :
    inferType (.listE [.numberLit (.intN 1) pos0, .numberLit (.intN 2) pos0] pos0)
      [⟨[], []⟩] = .listT (inferType (.numberLit (.intN 1) pos0) [⟨[], []⟩]) := by
  refine c6_container_inference_first_element.1 (.numberLit (.intN 1) pos0)
    [.numberLit (.intN 2) pos0] [⟨[], []⟩] pos0 ?_
  intro e he
  simp only [List.mem_singleton] at he
  subst he
  simp [inferType, typesCompatible, tyEqPy, isNumericTy]

section ListPatternLemmas

/-- Membership in the collected bind names of a pattern list. -/
theorem mem_patternBindNamesList {k : String} :
    ∀ {l : List Pattern}, k ∈ patternBindNamesList l ↔ ∃ p ∈ l, k ∈ patternBindNames p := by
  intro l
  induction l with
  | nil => simp [patternBindNamesList]
  | cons p ps ih =>
      simp only [patternBindNamesList, List.mem_append, ih, List.mem_cons]
      constructor
      · rintro (h | ⟨q, hq, hk⟩)
        · exact ⟨p, Or.inl rfl, h⟩
        · exact ⟨q, Or.inr hq, hk⟩
      · rintro ⟨q, hq | hq, hk⟩
        · subst hq; exact Or.inl hk
        · exact Or.inr ⟨q, hq, hk⟩

/-- Membership in the collected bind names of dictionary entries. -/
theorem mem_patternBindNamesEntries {k : String} :
    ∀ {l : List (String × Pattern)},
      k ∈ patternBindNamesEntries l ↔ ∃ kp ∈ l, k ∈ patternBindNames kp.2 := by
  intro l
  induction l with
  | nil => simp [patternBindNamesEntries]
  | cons kp rest ih =>
      obtain ⟨kk, p⟩ := kp
      simp only [patternBindNamesEntries, List.mem_append, ih, List.mem_cons]
      constructor
      · rintro (h | ⟨q, hq, hk⟩)
        · exact ⟨(kk, p), Or.inl rfl, h⟩
        · exact ⟨q, Or.inr hq, hk⟩
      · rintro ⟨q, hq | hq, hk⟩
        · subst hq; exact Or.inl hk
        · exact Or.inr ⟨q, hq, hk⟩

/-- A successful `restIndex` is a valid index. -/
theorem restIndex_lt :
    ∀ (l : List Pattern) (i0 ri : Nat), restIndex l i0 = some ri →
      i0 ≤ ri ∧ ri - i0 < l.length := by
  intro l
  induction l with
  | nil => intro i0 ri h; simp [restIndex] at h
  | cons p ps ih =>
      intro i0 ri h
      cases p with
      | restP n =>
          simp only [restIndex] at h
          cases h
          simp
      | wildcard =>
          obtain ⟨h1, h2⟩ := ih (i0 + 1) ri (by simpa [restIndex] using h)
          exact ⟨by omega, by simp [List.length_cons]; omega⟩
      | literal lv =>
          obtain ⟨h1, h2⟩ := ih (i0 + 1) ri (by simpa [restIndex] using h)
          exact ⟨by omega, by simp [List.length_cons]; omega⟩
      | varP nm =>
          obtain ⟨h1, h2⟩ := ih (i0 + 1) ri (by simpa [restIndex] using h)
          exact ⟨by omega, by simp [List.length_cons]; omega⟩
      | listP es =>
          obtain ⟨h1, h2⟩ := ih (i0 + 1) ri (by simpa [restIndex] using h)
          exact ⟨by omega, by simp [List.length_cons]; omega⟩
      | dictP es =>
          obtain ⟨h1, h2⟩ := ih (i0 + 1) ri (by simpa [restIndex] using h)
          exact ⟨by omega, by simp [List.length_cons]; omega⟩
      | typeP tn =>
          obtain ⟨h1, h2⟩ := ih (i0 + 1) ri (by simpa [restIndex] using h)
          exact ⟨by omega, by simp [List.length_cons]; omega⟩

/-- A pattern list with no rest element has no `restIndex`. -/
theorem restIndex_none_of_noRest :
    ∀ (l : List Pattern), l.all (fun e => !isRestP e) = true →
      ∀ i0, restIndex l i0 = none := by
  intro l
  induction l with
  | nil => intro _ i0; rfl
  | cons p ps ih =>
      intro h i0
      simp only [List.all_cons, Bool.and_eq_true] at h
      cases p with
      | restP n => simp [isRestP] at h
      | wildcard => simpa [restIndex] using ih h.2 (i0 + 1)
      | literal lv => simpa [restIndex] using ih h.2 (i0 + 1)
      | varP nm => simpa [restIndex] using ih h.2 (i0 + 1)
      | listP es => simpa [restIndex] using ih h.2 (i0 + 1)
      | dictP es => simpa [restIndex] using ih h.2 (i0 + 1)
      | typeP tn => simpa [restIndex] using ih h.2 (i0 + 1)

/-- Keys after a dict-set are the new key or old keys. -/
theorem bindingsSet_keys {k : String} :
    ∀ (b : List (String × Value)) (n : String) (v : Value),
      k ∈ (bindingsSet b n v).map Prod.fst → k = n ∨ k ∈ b.map Prod.fst := by
  intro b
  induction b with
  | nil => intro n v h; simpa [bindingsSet] using h
  | cons kv rest ih =>
      intro n v h
      obtain ⟨k2, v2⟩ := kv
      simp only [bindingsSet] at h
      by_cases he : k2 = n
      · rw [if_pos he] at h
        simp only [List.map_cons, List.mem_cons] at h
        rcases h with h | h
        · right; simp [h, he]
        · right; simp [h]
      · rw [if_neg he] at h
        simp only [List.map_cons, List.mem_cons] at h
        rcases h with h | h
        · right; simp [h]
        · rcases ih n v h with h2 | h2
          · exact Or.inl h2
          · right; simp [h2]

/-- Keys after a dict-update come from either operand. -/
theorem bindingsUpdate_keys {k : String} :
    ∀ (b2 b1 : List (String × Value)),
      k ∈ (bindingsUpdate b1 b2).map Prod.fst →
        k ∈ b1.map Prod.fst ∨ k ∈ b2.map Prod.fst := by
  intro b2
  induction b2 with
  | nil => intro b1 h; exact Or.inl h
  | cons kv rest ih =>
      intro b1 h
      obtain ⟨k2, v2⟩ := kv
      have : bindingsUpdate b1 ((k2, v2) :: rest) = bindingsUpdate (bindingsSet b1 k2 v2) rest := rfl
      rw [this] at h
      rcases ih _ h with h2 | h2
      · rcases bindingsSet_keys b1 k2 v2 h2 with h3 | h3
        · right; simp [h3]
        · exact Or.inl h3
      · right; simp [h2]

/-- Keys after a merge come from either side. -/
theorem merge_keys {k : String} (a b : MatchResult)
    (h : k ∈ (a.merge b).bindings.map Prod.fst) :
    k ∈ a.bindings.map Prod.fst ∨ k ∈ b.bindings.map Prod.fst := by
  unfold MatchResult.merge at h
  split at h
  · simp at h
  · split at h
    · simp at h
    · exact bindingsUpdate_keys b.bindings a.bindings h

/-- A key absent from a bindings dict looks up to `none`. -/
theorem bindingsGet_eq_none_of_not_mem {k : String} :
    ∀ (b : List (String × Value)), k ∉ b.map Prod.fst → bindingsGet b k = none := by
  intro b
  induction b with
  | nil => intro _; rfl
  | cons kv rest ih =>
      intro h
      obtain ⟨k2, v2⟩ := kv
      simp only [List.map_cons, List.mem_cons, not_or] at h
      simp only [bindingsGet]
      rw [if_neg (by exact fun he => h.1 he.symm)]
      exact ih h.2

/-- A merge whose right side binds only keys absent from the left side
cannot conflict: the success flag is the conjunction and the bindings
are the update. -/
theorem merge_no_conflict (a b : MatchResult)
    (h : ∀ kv ∈ b.bindings, bindingsGet a.bindings kv.1 = none) :
    a.merge b = ⟨a.success && b.success,
      if a.success && b.success then bindingsUpdate a.bindings b.bindings else []⟩ := by
  unfold MatchResult.merge
  by_cases hs : !a.success || !b.success
  · rw [if_pos hs]
    have hfalse : (a.success && b.success) = false := by
      rcases Bool.or_eq_true_iff.mp hs with h1 | h1
      · have h2 : a.success = false := by
          cases hq : a.success with
          | false => rfl
          | true => rw [hq] at h1; simp at h1
        simp [h2]
      · have h2 : b.success = false := by
          cases hq : b.success with
          | false => rfl
          | true => rw [hq] at h1; simp at h1
        simp [h2]
    simp [hfalse]
  · rw [if_neg hs]
    have hcon : (b.bindings.any fun kv =>
        match bindingsGet a.bindings kv.1 with
        | some v => !pyEq v kv.2
        | none => false) = false := by
      rw [List.any_eq_false]
      intro kv hkv
      rw [h kv hkv]
      simp
    rw [if_neg (by simp [hcon])]
    have hab : (a.success && b.success) = true := by
      have hs2 : (!a.success || !b.success) = false := by
        cases hq : (!a.success || !b.success) with
        | false => rfl
        | true => exact absurd hq hs
      rcases Bool.or_eq_false_iff.mp hs2 with ⟨h1, h2⟩
      have ha : a.success = true := by
        cases hq : a.success with
        | true => rfl
        | false => rw [hq] at h1; simp at h1
      have hb : b.success = true := by
        cases hq : b.success with
        | true => rfl
        | false => rw [hq] at h2; simp at h2
      simp [ha, hb]
    simp [hab]

end ListPatternLemmas

/-- Every binding key produced by the matcher is a bind name of the
pattern (variable patterns and named rest patterns). -/
theorem matchPattern_bindNames (reg : TypeRegistry) (p : Pattern) (v : Value) :
    ∀ k ∈ (matchPattern reg p v).bindings.map Prod.fst, k ∈ patternBindNames p := by
  refine matchPattern.induct
    (fun reg p v => ∀ k ∈ (matchPattern reg p v).bindings.map Prod.fst, k ∈ patternBindNames p)
    (fun entries v => ∀ k ∈ (matchDictionaryPattern entries v).bindings.map Prod.fst,
      k ∈ patternBindNamesEntries entries)
    (fun entries d acc => ∀ k ∈ (matchDictEntries entries d acc).bindings.map Prod.fst,
      k ∈ acc.bindings.map Prod.fst ∨ k ∈ patternBindNamesEntries entries)
    (fun elements v => ∀ k ∈ (matchListPattern elements v).bindings.map Prod.fst,
      k ∈ patternBindNamesList elements)
    (fun ps xs i acc => ∀ k ∈ (matchElemsAt ps xs i acc).bindings.map Prod.fst,
      k ∈ acc.bindings.map Prod.fst ∨ k ∈ patternBindNamesList ps)
    ?_ ?_ ?_ ?_ ?_ ?_ ?_ ?_ ?_ ?_ ?_ ?_ ?_ ?_ ?_ ?_ ?_ ?_ ?_ ?_ ?_ ?_ ?_ ?_ reg p v
  case refine_1 =>
    intro reg x k hk
    simp [matchPattern] at hk
  case refine_2 =>
    intro reg l value k hk
    simp [matchPattern] at hk
  case refine_3 =>
    intro reg name value k hk
    simp [matchPattern] at hk
    simp [patternBindNames, hk]
  case refine_4 =>
    intro reg elements value ih k hk
    simp only [matchPattern] at hk
    simpa [patternBindNames] using ih k hk
  case refine_5 =>
    intro reg entries value ih k hk
    simp only [matchPattern] at hk
    simpa [patternBindNames] using ih k hk
  case refine_6 =>
    intro reg value n k hk
    simp [matchPattern] at hk
    simp [patternBindNames, hk]
  case refine_7 =>
    intro reg value k hk
    simp [matchPattern] at hk
  case refine_8 =>
    intro reg typeName value check hreg k hk
    simp [matchPattern, hreg] at hk
  case refine_9 =>
    intro reg typeName value hreg k hk
    simp [matchPattern, hreg] at hk
  case refine_10 =>
    intro entries d hemp k hk
    simp [matchDictionaryPattern, hemp] at hk
  case refine_11 =>
    intro entries d hne ih k hk
    simp only [matchDictionaryPattern] at hk
    rw [if_neg hne] at hk
    rcases ih k hk with h | h
    · simp at h
    · exact h
  case refine_12 =>
    intro entries value hnd k hk
    cases value <;> first
      | exact (hnd _ rfl).elim
      | simp [matchDictionaryPattern] at hk
  case refine_13 =>
    intro d acc k hk
    simp only [matchDictEntries] at hk
    exact Or.inl hk
  case refine_14 =>
    intro kk p rest d acc v hlook ih1 ih2 k hk
    simp only [matchDictEntries, hlook] at hk
    rcases ih2 k hk with h | h
    · rcases merge_keys acc (matchPattern emptyRegistry p v) h with h2 | h2
      · exact Or.inl h2
      · right
        simp only [patternBindNamesEntries, List.mem_append]
        exact Or.inl (ih1 k h2)
    · right
      simp only [patternBindNamesEntries, List.mem_append]
      exact Or.inr h
  case refine_15 =>
    intro kk p rest d acc hlook k hk
    simp [matchDictEntries, hlook] at hk
  case refine_16 =>
    intro elements value hseq k hk
    simp [matchListPattern, hseq] at hk
  case refine_17 =>
    intro elements value xs hseq hemp k hk
    simp [matchListPattern, hseq, hemp] at hk
  case refine_18 =>
    intro elements value xs hseq hne ri hri beforeRest afterRest hlt k hk
    simp only [beforeRest, afterRest, List.length_take, List.length_drop] at hlt
    simp [matchListPattern, hseq, hne, hri, hlt] at hk
  case refine_19 =>
    intro elements value xs hseq hne ri hri beforeRest afterRest hlen r1 n hgd ihA ihB ihC k hk
    simp only [beforeRest, afterRest] at hlen
    simp only [beforeRest, afterRest, r1] at ihC
    have hrib : ri < elements.length := by
      have := restIndex_lt elements 0 ri hri
      omega
    have hmemel : elements.getD ri (Pattern.restP none) ∈ elements := by
      rw [List.getD_eq_getElem elements (Pattern.restP none) hrib]
      exact List.getElem_mem hrib
    simp only [matchListPattern, hseq, hne, hri, if_neg hlen, hgd,
      Bool.not_eq_true, ite_false, if_false] at hk
    rcases merge_keys _ _ hk with h | h
    · rcases ihC k h with h2 | h2
      · rcases ihA k h2 with h3 | h3
        · simp at h3
        · rw [mem_patternBindNamesList] at h3 ⊢
          obtain ⟨q, hq, hkq⟩ := h3
          exact ⟨q, List.mem_of_mem_take hq, hkq⟩
      · rw [mem_patternBindNamesList] at h2 ⊢
        obtain ⟨q, hq, hkq⟩ := h2
        exact ⟨q, List.mem_of_mem_drop hq, hkq⟩
    · simp at h
      rw [mem_patternBindNamesList]
      refine ⟨elements.getD ri (Pattern.restP none), hmemel, ?_⟩
      rw [hgd]
      simp [patternBindNames, h]
  case refine_20 =>
    intro elements value xs hseq hne ri hri beforeRest afterRest hlen r1 hother ihA ihB ihC k hk
    simp only [beforeRest, afterRest] at hlen
    simp only [beforeRest, afterRest, r1] at ihC
    have hred : ∀ kk ∈ (matchElemsAt (List.drop (ri + 1) elements) xs
        (xs.length - (List.drop (ri + 1) elements).length)
        (matchElemsAt (List.take ri elements) xs 0 ⟨true, []⟩)).bindings.map Prod.fst,
        kk ∈ patternBindNamesList elements := by
      intro kk hkk
      rcases ihC kk hkk with h2 | h2
      · rcases ihA kk h2 with h3 | h3
        · simp at h3
        · rw [mem_patternBindNamesList] at h3 ⊢
          obtain ⟨q, hq, hkq⟩ := h3
          exact ⟨q, List.mem_of_mem_take hq, hkq⟩
      · rw [mem_patternBindNamesList] at h2 ⊢
        obtain ⟨q, hq, hkq⟩ := h2
        exact ⟨q, List.mem_of_mem_drop hq, hkq⟩
    rcases hgd : elements.getD ri (Pattern.restP none) with _ | l | nm | es | es | onm | tn
    · simp only [matchListPattern, hseq, hne, hri, if_neg hlen, hgd] at hk
      exact hred k hk
    · simp only [matchListPattern, hseq, hne, hri, if_neg hlen, hgd] at hk
      exact hred k hk
    · simp only [matchListPattern, hseq, hne, hri, if_neg hlen, hgd] at hk
      exact hred k hk
    · simp only [matchListPattern, hseq, hne, hri, if_neg hlen, hgd] at hk
      exact hred k hk
    · simp only [matchListPattern, hseq, hne, hri, if_neg hlen, hgd] at hk
      exact hred k hk
    · cases onm with
      | some n => exact (hother n hgd).elim
      | none =>
          simp only [matchListPattern, hseq, hne, hri, if_neg hlen, hgd] at hk
          exact hred k hk
    · simp only [matchListPattern, hseq, hne, hri, if_neg hlen, hgd] at hk
      exact hred k hk
  case refine_21 =>
    intro elements value xs hseq hne hri hlen k hk
    simp [matchListPattern, hseq, hne, hri, hlen] at hk
  case refine_22 =>
    intro elements value xs hseq hne hri hlen ih k hk
    simp only [matchListPattern, hseq, hne, hri] at hk
    rw [if_neg hlen] at hk
    rcases ih k hk with h | h
    · simp at h
    · exact h
  case refine_23 =>
    intro x x1 acc k hk
    simp only [matchElemsAt] at hk
    exact Or.inl hk
  case refine_24 =>
    intro p ps xs i acc ih1 ih2 k hk
    simp only [matchElemsAt] at hk
    rcases ih2 k hk with h | h
    · rcases merge_keys acc (matchPattern emptyRegistry p (xs.getD i (Value.int 0))) h with h2 | h2
      · exact Or.inl h2
      · right
        simp only [patternBindNamesList, List.mem_append]
        exact Or.inl (ih1 k h2)
    · right
      simp only [patternBindNamesList, List.mem_append]
      exact Or.inr h

/-- A successful merge implies both operands were successful. -/
theorem merge_success {a b : MatchResult} (h : (a.merge b).success = true) :
    a.success = true ∧ b.success = true := by
  unfold MatchResult.merge at h
  split at h
  · simp at h
  · rename_i hs
    split at h
    · simp at h
    · cases ha : a.success with
      | true =>
          cases hb : b.success with
          | true => exact ⟨rfl, rfl⟩
          | false => rw [ha, hb] at hs; simp at hs
      | false => rw [ha] at hs; simp at hs

/-- If the element loop succeeds, the accumulator was successful and each
element pattern matched the value at its offset position. -/
theorem matchElemsAt_success_forward :
    ∀ (ps : List Pattern) (xs : List Value) (i : Nat) (acc : MatchResult),
      (matchElemsAt ps xs i acc).success = true →
      acc.success = true ∧ ∀ j, j < ps.length →
        (matchPattern emptyRegistry (ps.getD j .wildcard)
          (xs.getD (i + j) (.int 0))).success = true := by
  intro ps
  induction ps with
  | nil =>
      intro xs i acc h
      simp only [matchElemsAt] at h
      exact ⟨h, by intro j hj; simp at hj⟩
  | cons p ps ih =>
      intro xs i acc h
      simp only [matchElemsAt] at h
      obtain ⟨hm, hrest⟩ := ih xs (i + 1) _ h
      obtain ⟨hacc, hp⟩ := merge_success hm
      refine ⟨hacc, ?_⟩
      intro j hj
      cases j with
      | zero => simpa using hp
      | succ j2 =>
          have hj2 : j2 < ps.length := by simpa using hj
          have hstep := hrest j2 hj2
          have harith : i + 1 + j2 = i + (j2 + 1) := by omega
          rw [harith] at hstep
          simpa using hstep

/-- Conversely: if the accumulator is successful, its binding keys stay
inside a set disjoint from the remaining bind names, the remaining bind
names have no duplicates, and every element pattern matches at its
position, then the element loop succeeds (and its keys stay inside the
set extended by the new names). -/
theorem matchElemsAt_success_backward :
    ∀ (ps : List Pattern) (xs : List Value) (i : Nat) (acc : MatchResult) (S : List String),
      acc.success = true →
      (∀ k ∈ acc.bindings.map Prod.fst, k ∈ S) →
      (∀ k ∈ S, k ∉ patternBindNamesList ps) →
      (patternBindNamesList ps).Nodup →
      (∀ j, j < ps.length →
        (matchPattern emptyRegistry (ps.getD j .wildcard)
          (xs.getD (i + j) (.int 0))).success = true) →
      (matchElemsAt ps xs i acc).success = true ∧
        ∀ k ∈ (matchElemsAt ps xs i acc).bindings.map Prod.fst,
          k ∈ S ∨ k ∈ patternBindNamesList ps := by
  intro ps
  induction ps with
  | nil =>
      intro xs i acc S hacc hsub _ _ _
      simp only [matchElemsAt]
      exact ⟨hacc, fun k hk => Or.inl (hsub k hk)⟩
  | cons p ps ih =>
      intro xs i acc S hacc hsub hdisj hnodup hall
      simp only [matchElemsAt]
      have hp0 : (matchPattern emptyRegistry p (xs.getD i (.int 0))).success = true := by
        have := hall 0 (by simp)
        simpa using this
      have hnd := List.nodup_append.mp (by
        simpa [patternBindNamesList] using hnodup)
      have hnc : ∀ kv ∈ (matchPattern emptyRegistry p (xs.getD i (.int 0))).bindings,
          bindingsGet acc.bindings kv.1 = none := by
        intro kv hkv
        apply bindingsGet_eq_none_of_not_mem
        intro hmem
        have hS := hsub kv.1 hmem
        have hname : kv.1 ∈ patternBindNames p :=
          matchPattern_bindNames emptyRegistry p _ kv.1 (List.mem_map_of_mem Prod.fst hkv)
        exact hdisj kv.1 hS (by
          simp only [patternBindNamesList, List.mem_append]
          exact Or.inl hname)
      have hmerge := merge_no_conflict acc (matchPattern emptyRegistry p (xs.getD i (.int 0))) hnc
      rw [hacc, hp0] at hmerge
      simp only [Bool.and_self, if_true, ite_true] at hmerge
      have hdisj2 : ∀ k ∈ S ++ patternBindNames p, k ∉ patternBindNamesList ps := by
        intro k hk
        rcases List.mem_append.mp hk with h | h
        · intro hc
          exact hdisj k h (by
            simp only [patternBindNamesList, List.mem_append]
            exact Or.inr hc)
        · exact hnd.2.2 h
      have hsub2 : ∀ k ∈ (acc.merge (matchPattern emptyRegistry p
          (xs.getD i (.int 0)))).bindings.map Prod.fst, k ∈ S ++ patternBindNames p := by
        intro k hk
        rw [hmerge] at hk
        rcases bindingsUpdate_keys _ _ hk with h | h
        · exact List.mem_append.mpr (Or.inl (hsub k h))
        · exact List.mem_append.mpr (Or.inr (matchPattern_bindNames emptyRegistry p _ k h))
      have hall2 : ∀ j, j < ps.length →
          (matchPattern emptyRegistry (ps.getD j .wildcard)
            (xs.getD (i + 1 + j) (.int 0))).success = true := by
        intro j hj
        have hstep := hall (j + 1) (by simpa using Nat.succ_lt_succ hj)
        have harith : i + (j + 1) = i + 1 + j := by omega
        rw [harith] at hstep
        simpa using hstep
      have hmsucc : (acc.merge (matchPattern emptyRegistry p (xs.getD i (.int 0)))).success = true := by
        rw [hmerge]
      obtain ⟨hsucc, hkeys⟩ := ih xs (i + 1) _ (S ++ patternBindNames p)
        hmsucc hsub2 hdisj2 hnd.2.1 hall2
      refine ⟨hsucc, ?_⟩
      intro k hk
      rcases hkeys k hk with h | h
      · rcases List.mem_append.mp h with h2 | h2
        · exact Or.inl h2
        · right
          simp only [patternBindNamesList, List.mem_append]
          exact Or.inl h2
      · right
        simp only [patternBindNamesList, List.mem_append]
        exact Or.inr h

/-- Characterization of the list matcher for patterns without a rest
element and without duplicate bind names: success exactly on a list-like
scrutinee (list or tuple) of matching length whose items match
positionally. -/
theorem matchListPattern_success_iff (elements : List Pattern) (v : Value)
    (hnorest : elements.all (fun e => !isRestP e) = true)
    (hnodup : (patternBindNamesList elements).Nodup) :
    (matchListPattern elements v).success = true ↔
      ∃ xs, seqItems v = some xs ∧ xs.length = elements.length ∧
        ∀ j, j < elements.length →
          (matchPattern emptyRegistry (elements.getD j .wildcard)
            (xs.getD j (.int 0))).success = true := by
  cases hseq : seqItems v with
  | none => simp [matchListPattern, hseq]
  | some xs =>
      by_cases hemp : elements.isEmpty = true
      · have he : elements = [] := by
          cases elements with
          | nil => rfl
          | cons a l => simp [List.isEmpty] at hemp
        subst he
        simp [matchListPattern, hseq]
      · have hri := restIndex_none_of_noRest elements hnorest 0
        constructor
        · intro h
          simp only [matchListPattern, hseq, hri] at h
          rw [if_neg hemp] at h
          by_cases hlen : xs.length ≠ elements.length
          · rw [if_pos hlen] at h
            simp at h
          · rw [if_neg hlen] at h
            push_neg at hlen
            obtain ⟨_, hall⟩ := matchElemsAt_success_forward elements xs 0 ⟨true, []⟩ h
            refine ⟨xs, rfl, hlen, ?_⟩
            intro j hj
            simpa using hall j hj
        · rintro ⟨xs2, hxs2, hlen, hall⟩
          cases hxs2
          simp only [matchListPattern, hseq, hri]
          rw [if_neg hemp, if_neg (by omega)]
          refine (matchElemsAt_success_backward elements xs 0 ⟨true, []⟩ [] rfl
            (by simp) (by simp) hnodup ?_).1
          intro j hj
          simpa using hall j hj

/-- The element-condition loop emits exactly one condition per element. -/
theorem genCondElems_length :
    ∀ (ps : List Pattern) (s : String) (i : Nat), (genCondElems ps s i).length = ps.length := by
  intro ps
  induction ps with
  | nil => intro s i; simp [genCondElems]
  | cons p rest ih =>
      intro s i
      simp only [genCondElems, List.length_cons]
      rw [ih]

/-- C4 counterexample: the compiled test of the empty list pattern is
just the length check with no is-list conjunct, and the runtime matcher
accepts a tuple scrutinee, so neither half of the claimed behaviour
holds as stated. -/
theorem c4_empty_list_pattern_counterexample :
    genPatternCondition (.listP []) "v" = "len(v) == 0" ∧
    genPatternCondition (.listP []) "v" ≠ "isinstance(v, list) and len(v) == 0" ∧
    (matchListPattern [] (.tuple [])).success = true := by
  have h1 : genPatternCondition (.listP []) "v" = "len(v) == 0" := by
    simp only [genPatternCondition]
    decide
  refine ⟨h1, by rw [h1]; decide, ?_⟩
  simp only [matchListPattern]
  decide

/-- C4 (amended): for a list pattern without rest element, the compiled
test for N = 0 is only the length check (no is-list conjunct), for N ≥ 1
it is the claimed conjunction of an is-list check, a length check and
one condition per element; the matcher (assuming no duplicate bind
names) succeeds exactly on a list-like scrutinee — list or tuple, not
only a list — of length N whose items match positionally. -/
theorem c4_list_pattern_semantics
    (elements : List Pattern) (valueVar : String) (v : Value)
    (hnorest : elements.all (fun e => !isRestP e) = true)
    (hnodup : (patternBindNamesList elements).Nodup) :
    (elements = [] → genPatternCondition (.listP elements) valueVar =
      "len(" ++ valueVar ++ ") == " ++ toString elements.length) ∧
    (elements ≠ [] → genPatternCondition (.listP elements) valueVar =
      "isinstance(" ++ valueVar ++ ", list) and " ++
        ("len(" ++ valueVar ++ ") == " ++ toString elements.length) ++ " and " ++
        String.intercalate " and " (genCondElems elements valueVar 0)) ∧
    (genCondElems elements valueVar 0).length = elements.length ∧
    ((matchListPattern elements v).success = true ↔
      ∃ xs, seqItems v = some xs ∧ xs.length = elements.length ∧
        ∀ j, j < elements.length →
          (matchPattern emptyRegistry (elements.getD j .wildcard)
            (xs.getD j (.int 0))).success = true) := by
  have hany : elements.any isRestP = false := by
    rw [List.any_eq_false]
    intro x hx
    have hx2 := List.all_eq_true.mp hnorest x hx
    simpa using hx2
  refine ⟨?_, ?_, genCondElems_length elements valueVar 0, ?_⟩
  · intro he
    subst he
    simp [genPatternCondition]
  · intro hne
    have hemp : elements.isEmpty = false := by
      cases elements with
      | nil => exact absurd rfl hne
      | cons a l => rfl
    simp [genPatternCondition, hany, hemp]
  · exact matchListPattern_success_iff elements v hnorest hnodup

/-- Concrete instance of the amended C4 theorem: the pattern
[a, 2] with distinct bind names matches the list [5, 2]. -/
theorem c4_list_pattern_semantics_witness :
    ([Pattern.varP "a", Pattern.literal (.intV 2)].all (fun e => !isRestP e) = true) ∧
    (patternBindNamesList [Pattern.varP "a", Pattern.literal (.intV 2)]).Nodup ∧
    (matchListPattern [Pattern.varP "a", Pattern.literal (.intV 2)]
      (.list [.int 5, .int 2])).success = true := by
  have hnorest : ([Pattern.varP "a", Pattern.literal (.intV 2)].all
      (fun e => !isRestP e) = true) := by decide
  have hnodup : (patternBindNamesList [Pattern.varP "a", Pattern.literal (.intV 2)]).Nodup := by
    decide
  refine ⟨hnorest, hnodup, ?_⟩
  refine (c4_list_pattern_semantics [Pattern.varP "a", Pattern.literal (.intV 2)] "v"
    (.list [.int 5, .int 2]) hnorest hnodup).2.2.2.mpr ⟨[.int 5, .int 2], rfl, rfl, ?_⟩
  intro j hj
  cases j with
  | zero => simp [matchPattern]
  | succ j2 =>
      cases j2 with
      | zero => simp [matchPattern, Lit.value, pyEq]
      | succ j3 => simp at hj; omega

/-- C1 counterexample: the add/sum program parses and passes semantic
analysis with zero errors, yet transpiling it to the supported target
`javascript` yields no code and `valid = false`, because the JavaScript
generator raises `AttributeError` on every `FunctionCall` node. -/
theorem c1_generator_crash_counterexample :
    (analyzeSA addSumProg analyzerInit).1 = true ∧
    (transpileStd (fun _ => some addSumProg) jsGenerate "javascript" "src" true
      analyzerInit).1.code = none ∧
    (transpileStd (fun _ => some addSumProg) jsGenerate "javascript" "src" true
      analyzerInit).1.valid = false ∧
    (transpileStd (fun _ => some addSumProg) jsGenerate "javascript" "src" true
      analyzerInit).1.errors =
      ["Error generating Javascript code: \x27FunctionCall\x27 object has no attribute \x27args\x27"] := by
  exact ⟨rfl, rfl, rfl, rfl⟩

/-- C1 (amended): `transpile` short-circuits with no code and
`valid = false` on a parse failure and on an analysis failure, and a
clean analysis followed by a successful generation returns the generated
text with `valid = true` (the `python` generator never fails); but a
clean analysis does not guarantee generated code for every supported
target — if the target generator raises, `transpile` returns no code,
`valid = false`, and appends a generation error. -/
theorem c1_transpile_pipeline (parse : String → Option (List Stmt)) (source : String)
    (gen : List Stmt → Except String String) (target : String) (st : AnalyzerState) :
    (parse source = none →
      transpileStd parse gen target source true st =
        (⟨none, false, ["Failed to parse the source code"], []⟩, st)) ∧
    (∀ ast, parse source = some ast → (analyzeSA ast st).1 = false →
      (transpileStd parse gen target source true st).1.code = none ∧
      (transpileStd parse gen target source true st).1.valid = false) ∧
    (∀ ast, parse source = some ast → (analyzeSA ast st).1 = true →
      (transpileStd parse pyGenerateE "python" source true st).1.code =
        some (pyGenerate ast) ∧
      (transpileStd parse pyGenerateE "python" source true st).1.valid = true) ∧
    (∀ ast e, parse source = some ast → (analyzeSA ast st).1 = true →
      gen ast = .error e →
      (transpileStd parse gen target source true st).1.code = none ∧
      (transpileStd parse gen target source true st).1.valid = false ∧
      (transpileStd parse gen target source true st).1.errors =
        (analyzeSA ast st).2.errors ++
          ["Error generating " ++ pyCapitalize target ++ " code: " ++ e]) := by
  refine ⟨?_, ?_, ?_, ?_⟩
  · intro h
    simp [transpileStd, h]
  · intro ast h hval
    rcases hA : analyzeSA ast st with ⟨valid, st2⟩
    rw [hA] at hval
    simp only at hval
    simp [transpileStd, h, hA, hval]
  · intro ast h hval
    rcases hA : analyzeSA ast st with ⟨valid, st2⟩
    rw [hA] at hval
    simp only at hval
    simp [transpileStd, h, hA, hval, pyGenerateE]
  · intro ast e h hval hgen
    rcases hA : analyzeSA ast st with ⟨valid, st2⟩
    rw [hA] at hval
    simp only at hval
    simp [transpileStd, h, hA, hval, hgen]

/-- Concrete instance of the amended C1 theorem: the clean
one-declaration program transpiles to Python successfully. -/
theorem c1_transpile_pipeline_witness :
    ((fun (_ : String) => some astOk) "s" = some astOk) ∧
    (analyzeSA astOk analyzerInit).1 = true ∧
    (transpileStd (fun _ => some astOk) pyGenerateE "python" "s" true analyzerInit).1.code =
      some (pyGenerate astOk) ∧
    (transpileStd (fun _ => some astOk) pyGenerateE "python" "s" true analyzerInit).1.valid =
      true := by
  have h := (c1_transpile_pipeline (fun _ => some astOk) "s" pyGenerateE "python"
    analyzerInit).2.2.1 astOk rfl rfl
  exact ⟨rfl, rfl, h.1, h.2⟩

/-- A name that does not look up in a scope frame is not reported as
already defined in it. -/
theorem frameHas_false_of_get_none :
    ∀ (f : Frame) (name : String), frameGet f name = none → frameHas f name = false := by
  intro f
  induction f with
  | nil => intro name _; rfl
  | cons kv rest ih =>
      intro name h
      obtain ⟨k, s⟩ := kv
      simp only [frameGet] at h
      by_cases he : k = name
      · rw [if_pos he] at h
        cases h
      · rw [if_neg he] at h
        simp [frameHas, he, ih name h]

/-- After `Scope.define`, the defined name looks up to the new symbol. -/
theorem frameGet_frameSet :
    ∀ (f : Frame) (name : String) (s : Symbol), frameGet (frameSet f name s) name = some s := by
  intro f
  induction f with
  | nil => intro name s; simp [frameSet, frameGet]
  | cons kv rest ih =>
      intro name s
      obtain ⟨k, w⟩ := kv
      simp only [frameSet]
      by_cases he : k = name
      · rw [if_pos he]
        simp [frameGet, he]
      · rw [if_neg he]
        simp [frameGet, he, ih name s]

/-- C10: `visit_Declaration` visits the initializer before binding the
declared name. A declaration whose initializer references the name
being declared, with no binding of that name anywhere in the scope
chain, appends exactly one undefined-variable error, and afterwards the
name resolves in the current scope. -/
theorem c10_initializer_visited_before_binding (name : String) (pd pv : Position)
    (st : AnalyzerState) (f : Frame) (rest : List Frame)
    (hscopes : st.scopes = f :: rest)
    (hres : framesResolve st.scopes name = none) :
    (saVisitStmt (.decl name (some (.varRef name pv)) pd) st).errors =
      st.errors ++
        [pv.toStr ++ ": " ++ ("Reference to undefined variable \x27" ++ name ++ "\x27")] ∧
    framesResolve (saVisitStmt (.decl name (some (.varRef name pv)) pd) st).scopes name =
      some ⟨name, none⟩ := by
  have hres2 : framesResolve (f :: rest) name = none := hscopes ▸ hres
  have hfg : frameGet f name = none := by
    simp only [framesResolve] at hres2
    cases hq : frameGet f name with
    | none => rfl
    | some s => rw [hq] at hres2; cases hres2
  have hhas : frameHas f name = false := frameHas_false_of_get_none f name hfg
  constructor
  · simp [saVisitStmt, hscopes, hhas, saVisitExpr, hres, hres2,
      AnalyzerState.addError, AnalyzerState.define]
  · simp [saVisitStmt, hscopes, hhas, saVisitExpr, hres, hres2,
      AnalyzerState.addError, AnalyzerState.define, framesResolve, frameGet_frameSet]

/-- Concrete instance of the C10 theorem on a fresh analyzer: declaring
`x` with initializer `x` reports the undefined reference, then binds `x`. -/
theorem c10_initializer_visited_before_binding_witness :
    analyzerInit.scopes = [] :: [] ∧
    framesResolve analyzerInit.scopes "x" = none ∧
    (saVisitStmt (.decl "x" (some (.varRef "x" pos0)) pos0) analyzerInit).errors =
      analyzerInit.errors ++
        [pos0.toStr ++ ": " ++ ("Reference to undefined variable \x27" ++ "x" ++ "\x27")] ∧
    framesResolve (saVisitStmt (.decl "x" (some (.varRef "x" pos0)) pos0)
      analyzerInit).scopes "x" = some ⟨"x", none⟩ := by
  have h := c10_initializer_visited_before_binding "x" pos0 pos0 analyzerInit [] [] rfl rfl
  exact ⟨rfl, rfl, h.1, h.2⟩

end Runa
